import Mathlib

/-!
A verification model of the FlexEvent publish/subscribe dispatcher
(src/event.ts of zhangfisher/flexevent).

The TypeScript class `FlexEvent` is shallowly embedded as a pure state type
`FlexEvent.State` together with state-passing functions, one per method of
the class.  JavaScript `Map`s and `Set`s are modelled as insertion-ordered
association lists and lists (JS `Map`/`Set` iterate in insertion order);
callback identity (JS reference equality of function objects) is modelled
by a `Nat` identity, whose behaviour is supplied by an environment
`Env : Callback -> IEvent -> ListenerResult`; a listener invocation settles
either to a thrown/rejected reason (`Except.error`) or to a returned value
(`Except.ok`), where the value `none` models JavaScript `undefined`.
Listener callbacks are modelled as pure (they do not re-enter the emitter).
-/

namespace FlexEvent

/-- An event `{ type, payload }` (src: `IEvent` in types.ts).  The payload is
opaque to the dispatcher; it is modelled as a `String`. -/
structure IEvent where
  type : String
  payload : String
deriving DecidableEq, Repr

/-- The settlement of one listener invocation: `Except.error reason` models a
synchronous throw or an eventual promise rejection; `Except.ok none` models
returning `undefined`; `Except.ok (some v)` a defined value. -/
abbrev ListenerResult := Except String (Option String)

/-- A callback is identified by reference; reference equality is equality of
this identity. -/
abbrev Callback := Nat

/-- The behaviour attached to each callback identity. -/
abbrev Env := Callback → IEvent → ListenerResult

/-- `Map.get` on an insertion-ordered association list. -/
def mapGet? {α β : Type} [DecidableEq α] : List (α × β) → α → Option β
  | [], _ => none
  | (k, v) :: rest, a => if k = a then some v else mapGet? rest a

/-- `Map.set`: update in place if the key is present, else append. -/
def mapSet {α β : Type} [DecidableEq α] : List (α × β) → α → β → List (α × β)
  | [], a, b => [(a, b)]
  | (k, v) :: rest, a, b =>
    if k = a then (k, b) :: rest else (k, v) :: mapSet rest a b

/-- `Map.delete`. -/
def mapDelete {α β : Type} [DecidableEq α] (l : List (α × β)) (a : α) :
    List (α × β) :=
  l.filter (fun p => p.1 ≠ a)

/-- `Set.add`: append if absent (JS sets keep insertion order). -/
def setAdd (l : List Nat) (x : Nat) : List Nat :=
  if x ∈ l then l else l ++ [x]

/-- `Set.delete`. -/
def setDelete (l : List Nat) (x : Nat) : List Nat :=
  l.filter (fun y => y ≠ x)

/-- `SubscriberNode { listeners: Set<number>, children: Map<string, SubscriberNode> }`
(src/event.ts lines 109-112). -/
inductive SubscriberNode where
  | node (listeners : List Nat) (children : List (String × SubscriberNode))

/-- The listener set stored directly at a node. -/
def SubscriberNode.listeners : SubscriberNode → List Nat
  | .node ls _ => ls

/-- The child map of a node. -/
def SubscriberNode.children : SubscriberNode → List (String × SubscriberNode)
  | .node _ cs => cs

/-- Follow a full child path from a node; `none` if any segment is missing. -/
def nodeAt? : SubscriberNode → List String → Option SubscriberNode
  | n, [] => some n
  | .node _ cs, p :: ps =>
    match mapGet? cs p with
    | none => none
    | some c => nodeAt? c ps

/-- The listener set of the node at a path (empty when the path is missing). -/
def nodeListeners (t : SubscriberNode) (p : List String) : List Nat :=
  match nodeAt? t p with
  | some n => n.listeners
  | none => []

/-- Apply `f` to the node at `path` (listeners-only updates in this file),
leaving the tree unchanged when the path is missing. -/
def updateAt (f : SubscriberNode → SubscriberNode) :
    SubscriberNode → List String → SubscriberNode
  | n, [] => f n
  | .node ls cs, p :: ps =>
    match mapGet? cs p with
    | none => .node ls cs
    | some c => .node ls (mapSet cs p (updateAt f c ps))

/-- Apply a listener-set transformation to the node at `path`. -/
def updateL (g : List Nat → List Nat) (t : SubscriberNode) (path : List String) :
    SubscriberNode :=
  updateAt (fun n => .node (g n.listeners) n.children) t path

/-- `node.listeners.delete(id)` performed on the node at `path`. -/
def eraseAt (id : Nat) (t : SubscriberNode) (path : List String) : SubscriberNode :=
  updateL (fun ls => setDelete ls id) t path

/-- `node.listeners.add(id)` performed on the node at `path`. -/
def addAt (id : Nat) (t : SubscriberNode) (path : List String) : SubscriberNode :=
  updateL (fun ls => setAdd ls id) t path

/-- `_navigateToNode(eventType, true)`: walk the segments from the root,
creating missing children as `{ listeners: new Set(), children: new Map() }`. -/
def navigateCreate : SubscriberNode → List String → SubscriberNode
  | n, [] => n
  | .node ls cs, p :: ps =>
    match mapGet? cs p with
    | some c => .node ls (mapSet cs p (navigateCreate c ps))
    | none => .node ls (mapSet cs p (navigateCreate (.node [] []) ps))

/-- `_navigateToNode(eventType)` without `create`: the loop `break`s at the
first missing child and returns the node reached so far.  This returns the
path of the node the loop ends on (a possibly proper subpath of the input). -/
def navigatePath : SubscriberNode → List String → List String
  | _, [] => []
  | .node _ cs, p :: ps =>
    match mapGet? cs p with
    | none => []
    | some c => p :: navigatePath c ps

mutual

/-- How many times `id` occurs in listener sets anywhere in the tree. -/
def occCount (id : Nat) : SubscriberNode → Nat
  | .node ls cs => ls.count id + occCountChildren id cs

/-- `occCount` summed over a child map. -/
def occCountChildren (id : Nat) : List (String × SubscriberNode) → Nat
  | [] => 0
  | (_, c) :: rest => occCount id c + occCountChildren id rest

end

mutual

/-- Every listener id stored in the tree is below `bound`. -/
def idsBelow (bound : Nat) : SubscriberNode → Bool
  | .node ls cs => ls.all (fun i => i < bound) && idsBelowChildren bound cs

/-- `idsBelow` over a child map. -/
def idsBelowChildren (bound : Nat) : List (String × SubscriberNode) → Bool
  | [] => true
  | (_, c) :: rest => idsBelow bound c && idsBelowChildren bound rest

end

/-- Splitting a character list on a non-empty separator, exactly as
JavaScript `String.prototype.split` does (leftmost separator occurrence is
consumed; an empty input yields `[""]`).  The fuel argument is the length of
the list; each step consumes at least one character. -/
def splitAux (sep : List Char) : Nat → List Char → List (List Char)
  | _, [] => [[]]
  | 0, l => [l]
  | fuel + 1, c :: rest =>
    if sep.isPrefixOf (c :: rest) then
      [] :: splitAux sep fuel ((c :: rest).drop sep.length)
    else
      match splitAux sep fuel rest with
      | [] => [[c]]
      | h :: t => (c :: h) :: t

/-- `eventType.split(this._delimiter)` for the non-empty delimiter strings the
constructor admits. -/
def splitString (s sep : String) : List String :=
  (splitAux sep.data s.data.length s.data).map (fun l => String.mk l)

/-- The mutable fields of a `FlexEvent` instance (src/event.ts lines 134-140):
`_listeners` (id to callback), `_subscribers` (topic trie), `_listenerCount`
(monotone id counter), `_retainedEvents` (exact topic to event),
`_onceListeners` (fire-once id set), `_delimiter`, and `_processedListeners`
(the per-dispatch dedupe set, stored on the instance). -/
structure State where
  listeners : List (Nat × Callback)
  subscribers : SubscriberNode
  listenerCount : Nat
  retainedEvents : List (String × IEvent)
  onceListeners : List Nat
  delimiter : String
  processedListeners : List Nat

/-- The constructor: `options.delimiter || '.'` (an absent or empty delimiter
is falsy and replaced by the default). -/
def mkFlexEvent (delimiterOption : Option String) : State :=
  { listeners := []
    subscribers := .node [] []
    listenerCount := 0
    retainedEvents := []
    onceListeners := []
    delimiter :=
      match delimiterOption with
      | some d => if d = "" then "." else d
      | none => "."
    processedListeners := [] }

/-- The segments of a topic or pattern under the instance delimiter. -/
def partsOf (s : State) (eventType : String) : List String :=
  splitString eventType s.delimiter

/-- The subscription handle returned by `_addListener`: `off` captures the
listener id, the node it was inserted into (identified here by its path,
which is the full segment list since registration navigates with
`create = true`), and whether it was registered as fire-once.  After a
retained replay consumed a once listener, the returned handle is
`{ off: () => {} }` (`noop`). -/
structure Subscriber where
  id : Nat
  path : List String
  isOnce : Bool
  noop : Bool
deriving DecidableEq, Repr

/-- `_addListener(eventType, listener, isOnce)` (src/event.ts lines 179-214):
allocate `listenerId = this._listenerCount++`, store the callback, mark
fire-once ids, insert the id into the node created for the pattern, then —
if a retained event is stored under the literal `eventType` string — invoke
the callback synchronously with that event (the second component of the
result lists these replay invocations as (callback, event) pairs; the
callback result is discarded) and, for a once listener, immediately remove
id from registry, once set and node and return a no-op handle. -/
def addListener (s : State) (eventType : String) (cb : Callback) (isOnce : Bool) :
    State × List (Callback × IEvent) × Subscriber :=
  let listenerId := s.listenerCount
  let parts := partsOf s eventType
  let subs1 := navigateCreate s.subscribers parts
  let s1 : State :=
    { s with
      listeners := mapSet s.listeners listenerId cb
      onceListeners := if isOnce then setAdd s.onceListeners listenerId else s.onceListeners
      listenerCount := s.listenerCount + 1
      subscribers := addAt listenerId subs1 parts }
  match mapGet? s1.retainedEvents eventType with
  | some ev =>
    if isOnce then
      let s2 : State :=
        { s1 with
          listeners := mapDelete s1.listeners listenerId
          onceListeners := setDelete s1.onceListeners listenerId
          subscribers := eraseAt listenerId s1.subscribers parts }
      (s2, [(cb, ev)], ⟨listenerId, parts, isOnce, true⟩)
    else
      (s1, [(cb, ev)], ⟨listenerId, parts, isOnce, false⟩)
  | none => (s1, [], ⟨listenerId, parts, isOnce, false⟩)

/-- `on(eventType, listener)`. -/
def «on» (s : State) (eventType : String) (cb : Callback) :
    State × List (Callback × IEvent) × Subscriber :=
  addListener s eventType cb false

/-- `once(eventType, listener)`. -/
def once (s : State) (eventType : String) (cb : Callback) :
    State × List (Callback × IEvent) × Subscriber :=
  addListener s eventType cb true

/-- `onAny(listener)` registers at the literal pattern `**`. -/
def onAny (s : State) (cb : Callback) :
    State × List (Callback × IEvent) × Subscriber :=
  addListener s "**" cb false

/-- The `off` closure of a subscription handle: delete the captured id from
`_listeners`, from `_onceListeners` when fire-once, and from the captured
node's listener set. -/
def subscriberOff (s : State) (sub : Subscriber) : State :=
  if sub.noop then s
  else
    { s with
      listeners := mapDelete s.listeners sub.id
      onceListeners := if sub.isOnce then setDelete s.onceListeners sub.id else s.onceListeners
      subscribers := eraseAt sub.id s.subscribers sub.path }

/-- The scan of `_removeListenerFromNode` (src/event.ts lines 221-233): the
first registry entry, in insertion order, whose callback is reference-equal
to `cb` and whose id is in the node's listener set. -/
def findRemovable (entries : List (Nat × Callback)) (cb : Callback)
    (nodeIds : List Nat) : Option Nat :=
  match entries with
  | [] => none
  | (id, fn) :: rest =>
    if fn = cb ∧ id ∈ nodeIds then some id else findRemovable rest cb nodeIds

/-- `off(eventType, listener)` (src/event.ts lines 448-454): navigate without
`create` (stopping at the first missing segment — the node acted on can be a
proper-prefix node), then `_removeListenerFromNode`: remove the first
reference-equal callback whose id is in that node's set from node, registry
and once set. -/
def off (s : State) (eventType : String) (cb : Callback) : State :=
  let path := navigatePath s.subscribers (partsOf s eventType)
  match findRemovable s.listeners cb (nodeListeners s.subscribers path) with
  | none => s
  | some id =>
    { s with
      listeners := mapDelete s.listeners id
      onceListeners := setDelete s.onceListeners id
      subscribers := eraseAt id s.subscribers path }

/-- The listener loop at the head of `_emitToSubscribers` (src/event.ts lines
281-294), with `_processListener` (lines 243-263) inlined: for each id of the
node's snapshot, skip it when it is in `_processedListeners` or gone from the
registry; otherwise add it to `_processedListeners`, invoke the callback, and
— in the `finally` block, whether or not the invocation failed — remove a
fire-once id from registry, once set and the current node.  Because
`_processListener` is an `async` method whose returned promise the
synchronous path discards, a listener throw never escapes: it only settles
the recorded `ListenerResult`.  Returns (state, invoked ids, results), both
lists in invocation order.  `invokeState` is the state mutation performed
around one invocation: the dedupe-set insertion done before the call and the
`finally` once-removal done after it. -/
def invokeState (path : List String) (id : Nat) (s : State) : State :=
  let s1 : State := { s with processedListeners := setAdd s.processedListeners id }
  if id ∈ s1.onceListeners then
    { s1 with
      listeners := mapDelete s1.listeners id
      onceListeners := setDelete s1.onceListeners id
      subscribers := eraseAt id s1.subscribers path }
  else s1

def processIds (env : Env) (ev : IEvent) (path : List String) :
    List Nat → State → State × List Nat × List ListenerResult
  | [], s => (s, [], [])
  | id :: rest, s =>
    if id ∈ s.processedListeners then processIds env ev path rest s
    else
      match mapGet? s.listeners id with
      | none => processIds env ev path rest s
      | some cb =>
        let r := env cb ev
        let rec0 := processIds env ev path rest (invokeState path id s)
        (rec0.1, id :: rec0.2.1, r :: rec0.2.2)

/-- `node.children.has(k)` for the node at `path`. -/
def childExists (s : State) (path : List String) (k : String) : Bool :=
  (nodeAt? s.subscribers (path ++ [k])).isSome

/-- `_emitToSubscribers(node, parts, event, isAsync)` (src/event.ts lines
272-334), recursing on the remaining segments; the current node is named by
its path from the root.  After the listener loop, when segments remain the
walk visits the exact child, then the `*` child, then the `**` child — the
`**` child with an empty remaining-segment list, which makes that visit just
the listener loop of the `**` node (the `parts.length === 0` return of the
same method), written here inline.  Listener invocations start in this
traversal order, and the promise array assembled for the async path —
`Promise.all([...promises, ...childPromises])` — lists settlements in the
same order, which the third component reproduces. -/
def emitToSubscribers (env : Env) (ev : IEvent) :
    List String → List String → State → State × List Nat × List ListenerResult
  | [], path, s => processIds env ev path (nodeListeners s.subscribers path) s
  | current :: rest, path, s =>
    let r1 := processIds env ev path (nodeListeners s.subscribers path) s
    let r2 :=
      if childExists r1.1 path current then
        emitToSubscribers env ev rest (path ++ [current]) r1.1
      else (r1.1, [], [])
    let r3 :=
      if childExists r2.1 path "*" then
        emitToSubscribers env ev rest (path ++ ["*"]) r2.1
      else (r2.1, [], [])
    let r4 :=
      if childExists r3.1 path "**" then
        processIds env ev (path ++ ["**"]) (nodeListeners r3.1.subscribers (path ++ ["**"])) r3.1
      else (r3.1, [], [])
    (r4.1, r1.2.1 ++ r2.2.1 ++ r3.2.1 ++ r4.2.1, r1.2.2 ++ r2.2.2 ++ r3.2.2 ++ r4.2.2)

/-- `emit(event, retain)` (src/event.ts lines 401-416): store the retained
event when asked, split the topic (`_navigateToNode` is called only for its
`parts`; without `create` it does not mutate), and walk the trie from the
root.  The listener results are discarded — `_processListener` is `async`,
so a throwing listener yields a dangling rejected promise and `emit` itself
returns normally.  The second component is the invoked ids in order. -/
def emit (env : Env) (s : State) (ev : IEvent) (retain : Bool) : State × List Nat :=
  let s0 :=
    if retain then { s with retainedEvents := mapSet s.retainedEvents ev.type ev } else s
  let r := emitToSubscribers env ev (partsOf s0 ev.type) [] s0
  (r.1, r.2.1)

/-- One entry of the array `emitAsync` resolves with, as produced by
`Promise.allSettled`. -/
inductive SettledOutcome where
  | fulfilled (value : String)
  | rejected (reason : String)
deriving DecidableEq, Repr

/-- `Promise.all` over the settled results assembled by the walk: the first
rejection in order rejects the whole array. -/
def firstError : List ListenerResult → Option String
  | [] => none
  | .error e :: _ => some e
  | .ok _ :: rest => firstError rest

/-- `emitAsync(event, retain)` (src/event.ts lines 424-441): same retention
and walk; the walk returns `Promise.all` of every listener promise, so if any
matched listener throws or rejects, the `await` inside `emitAsync` re-throws
and `emitAsync` rejects with that reason (`Except.error`) — the subsequent
`Promise.allSettled` line is never reached.  When every listener settles
successfully, `allSettled` is applied to the plain resolved values after
`.filter(r => r !== undefined)`, producing only `fulfilled` entries, one per
invoked listener whose value was not `undefined`, in traversal order. -/
def emitAsync (env : Env) (s : State) (ev : IEvent) (retain : Bool) :
    State × Except String (List SettledOutcome) :=
  let s0 :=
    if retain then { s with retainedEvents := mapSet s.retainedEvents ev.type ev } else s
  let r := emitToSubscribers env ev (partsOf s0 ev.type) [] s0
  match firstError r.2.2 with
  | some e => (r.1, Except.error e)
  | none =>
    (r.1, Except.ok (r.2.2.filterMap (fun res =>
      match res with
      | .ok (some v) => some (SettledOutcome.fulfilled v)
      | _ => none)))

/-- `_removeSubscribers(node, parts)` (src/event.ts lines 341-357): with no
segments left, delete every id of the node from the registry and clear the
node's set; otherwise recurse into the `current` child when present and, when
`rest` is empty, delete that child from the map on the way out.  Returns the
new tree and the ids deleted from the registry. -/
def removeSubscribers : SubscriberNode → List String → SubscriberNode × List Nat
  | .node ls cs, [] => (.node [] cs, ls)
  | .node ls cs, current :: rest =>
    match mapGet? cs current with
    | none => (.node ls cs, [])
    | some c =>
      let r := removeSubscribers c rest
      if rest = [] then (.node ls (mapDelete cs current), r.2)
      else (.node ls (mapSet cs current r.1), r.2)

/-- Delete several registry keys. -/
def deleteIds (l : List (Nat × Callback)) (ids : List Nat) : List (Nat × Callback) :=
  ids.foldl mapDelete l

/-- `offAll(eventType?)` (src/event.ts lines 483-493): with no event type (or
the falsy empty string), reset `_listeners`, `_subscribers` and
`_retainedEvents` (the once set, the counter and `_processedListeners` are
left as they are); otherwise run `_removeSubscribers` from the root over the
full segment list. -/
def offAll (s : State) (eventType : Option String) : State :=
  match eventType with
  | none =>
    { s with listeners := [], subscribers := .node [] [], retainedEvents := [] }
  | some t =>
    if t = "" then
      { s with listeners := [], subscribers := .node [] [], retainedEvents := [] }
    else
      let r := removeSubscribers s.subscribers (partsOf s t)
      { s with subscribers := r.1, listeners := deleteIds s.listeners r.2 }

/-- `clear()`: `offAll()` followed by clearing the retained events again. -/
def clear (s : State) : State :=
  let s1 := offAll s none
  { s1 with retainedEvents := [] }

/-- The message of the `TimeoutError` rejected by `waitFor`. -/
def timeoutMessage (eventType : String) (timeout : Int) : String :=
  "Waiting for event \"" ++ eventType ++ "\" timed out after " ++ toString timeout ++ "ms"

/-- The observable situation of one `waitFor(eventType, timeout)` call
(src/event.ts lines 516-539).  `settled` is the promise: `none` while
pending, `some (Except.ok ev)` once resolved with an event,
`some (Except.error msg)` once rejected with a `TimeoutError` — a promise
settles only once, so later resolutions and rejections leave it unchanged.
`timerActive` records whether a `setTimeout` timer is pending (created
exactly when `timeout > 0`, after the `once` registration; cleared by the
resolve callback; consumed when it fires). -/
structure WaitState where
  state : State
  sub : Subscriber
  eventType : String
  timeout : Int
  settled : Option (Except String IEvent)
  timerActive : Bool

/-- `waitFor(eventType, timeout)`: register a fire-once listener whose
callback clears the timer and resolves with the received event.  If a
retained event is stored under the literal `eventType`, that callback runs
synchronously inside `once` — resolving the promise before the timer is even
created.  Then, when `timeout > 0`, start the timer.  `waitCb` is the fresh
identity of the resolver closure. -/
def waitFor (s : State) (eventType : String) (timeout : Int) (waitCb : Callback) :
    WaitState :=
  let r := once s eventType waitCb
  { state := r.1
    sub := r.2.2
    eventType := eventType
    timeout := timeout
    settled :=
      match r.2.1 with
      | (_, ev) :: _ => some (Except.ok ev)
      | [] => none
    timerActive := timeout > 0 }

/-- The `setTimeout` callback firing (possible only while the timer is
pending): `subscriber.off()` then reject with the `TimeoutError`; rejecting
an already-settled promise has no effect on it. -/
def timeoutFires (w : WaitState) : WaitState :=
  if w.timerActive then
    { w with
      state := subscriberOff w.state w.sub
      timerActive := false
      settled :=
        match w.settled with
        | none => some (Except.error (timeoutMessage w.eventType w.timeout))
        | some r => some r }
  else w

/-- An `emit` on the instance while a `waitFor` is outstanding: if the wait's
fire-once listener is among the invoked ids, its callback ran —
`clearTimeout` (when a timer was created) and `resolve(event)`; resolving an
already-settled promise has no effect on it. -/
def waitEmit (env : Env) (w : WaitState) (ev : IEvent) (retain : Bool) : WaitState :=
  let r := emit env w.state ev retain
  if w.sub.id ∈ r.2 then
    { w with
      state := r.1
      timerActive := false
      settled :=
        match w.settled with
        | none => some (Except.ok ev)
        | some res => some res }
  else { w with state := r.1 }

/-! ### The dispatch step specification

`StepSpec s s2 inv` records what one stretch of dispatching (a listener
loop, a subtree walk, or a whole emission) that invoked the ids `inv`, in
order, does to the state: the dedupe set grows by exactly the invoked ids,
registry and once set are untouched for ids that were not invoked, invoked
fire-once ids are removed everywhere, the trie shape is unchanged, listener
occurrences never increase, and an invoked id was registered and not yet in
the dedupe set when the stretch began. -/

structure StepSpec (s s2 : State) (inv : List Nat) : Prop where
  processed : s2.processedListeners = s.processedListeners ++ inv
  regSame : ∀ id, id ∉ inv → mapGet? s2.listeners id = mapGet? s.listeners id
  onceSame : ∀ id, id ∉ inv → (id ∈ s2.onceListeners ↔ id ∈ s.onceListeners)
  regMono : ∀ id, mapGet? s.listeners id = none → mapGet? s2.listeners id = none
  onceMono : ∀ id, id ∉ s.onceListeners → id ∉ s2.onceListeners
  onceRemoved : ∀ id, id ∈ inv → id ∈ s.onceListeners →
    mapGet? s2.listeners id = none ∧ id ∉ s2.onceListeners
  shape : ∀ p, (nodeAt? s2.subscribers p).isSome = (nodeAt? s.subscribers p).isSome
  occMono : ∀ id, occCount id s2.subscribers ≤ occCount id s.subscribers
  occOnce : ∀ id, id ∈ inv → id ∈ s.onceListeners →
    occCount id s2.subscribers + 1 ≤ occCount id s.subscribers
  invSound : ∀ id, id ∈ inv →
    (mapGet? s.listeners id).isSome = true ∧ id ∉ s.processedListeners
  invNodup : inv.Nodup
  memPreserved : ∀ id p, id ∉ inv →
    (id ∈ nodeListeners s2.subscribers p ↔ id ∈ nodeListeners s.subscribers p)
  countSame : s2.listenerCount = s.listenerCount
  retainedSame : s2.retainedEvents = s.retainedEvents
  delimSame : s2.delimiter = s.delimiter
  noInv : inv = [] → s2 = s

/-- Well-formedness of an instance state: every listener id stored in the
trie or in the dedupe set was allocated by the monotone counter, hence is
below `listenerCount`.  This holds for every state reachable from the
constructor. -/
structure WF (s : State) : Prop where
  trieBound : idsBelow s.listenerCount s.subscribers = true
  processedBound : ∀ id ∈ s.processedListeners, id < s.listenerCount

/-- The state produced by the registration part of `_addListener` (before the
retained-event check). -/
def registeredState (s : State) (T : String) (cb : Callback) (isOnce : Bool) :
    State :=
  { s with
    listeners := mapSet s.listeners s.listenerCount cb
    onceListeners :=
      if isOnce then setAdd s.onceListeners s.listenerCount else s.onceListeners
    listenerCount := s.listenerCount + 1
    subscribers := addAt s.listenerCount
      (navigateCreate s.subscribers (partsOf s T)) (partsOf s T) }

/-- A sample listener environment used in concrete scenarios: callbacks 0 and
2 return defined values, callback 1 returns undefined, callback 9 throws. -/
def envW : Env := fun cb _ =>
  if cb = 0 then Except.ok (some "v1")
  else if cb = 1 then Except.ok none
  else if cb = 2 then Except.ok (some "v2")
  else if cb = 9 then Except.error "boom"
  else Except.ok none

/-! ### Association list and set lemmas -/

theorem mapGet?_mapSet_self {α β : Type} [DecidableEq α] (l : List (α × β)) (a : α) (b : β) :
    mapGet? (mapSet l a b) a = some b := by
  induction l with
  | nil => simp [mapGet?, mapSet]
  | cons p rest ih =>
    by_cases h : p.1 = a
    · simp [mapSet, mapGet?, h]
    · simpa [mapSet, mapGet?, h] using ih

theorem mapGet?_mapSet_ne {α β : Type} [DecidableEq α] (l : List (α × β)) (a c : α) (b : β)
    (h : c ≠ a) : mapGet? (mapSet l a b) c = mapGet? l c := by
  have hac : a ≠ c := fun hh => h hh.symm
  induction l with
  | nil => simp [mapGet?, mapSet, hac]
  | cons p rest ih =>
    obtain ⟨k, v⟩ := p
    by_cases hk : k = a
    · subst hk
      simp [mapSet, mapGet?, hac]
    · by_cases hkc : k = c
      · subst hkc
        simp [mapSet, mapGet?, hk]
      · simp [mapSet, mapGet?, hk, hkc, ih]

theorem mapGet?_mapDelete_self {α β : Type} [DecidableEq α] (l : List (α × β)) (a : α) :
    mapGet? (mapDelete l a) a = none := by
  induction l with
  | nil => simp [mapGet?, mapDelete]
  | cons p rest ih =>
    obtain ⟨k, v⟩ := p
    by_cases hk : k = a
    · subst hk
      simpa [mapDelete, List.filter_cons] using ih
    · simpa [mapDelete, List.filter_cons, hk, mapGet?] using ih

theorem mapGet?_mapDelete_ne {α β : Type} [DecidableEq α] (l : List (α × β)) (a c : α)
    (h : c ≠ a) : mapGet? (mapDelete l a) c = mapGet? l c := by
  induction l with
  | nil => simp [mapGet?, mapDelete]
  | cons p rest ih =>
    obtain ⟨k, v⟩ := p
    by_cases hk : k = a
    · subst hk
      have hkc : k ≠ c := fun hh => h hh.symm
      simpa [mapDelete, List.filter_cons, mapGet?, hkc] using ih
    · by_cases hkc : k = c
      · subst hkc
        simp [mapDelete, List.filter_cons, hk, mapGet?]
      · simpa [mapDelete, List.filter_cons, hk, hkc, mapGet?] using ih

theorem mapSet_self {α β : Type} [DecidableEq α] (l : List (α × β)) (a : α) (b : β)
    (h : mapGet? l a = some b) : mapSet l a b = l := by
  induction l with
  | nil => simp [mapGet?] at h
  | cons p rest ih =>
    obtain ⟨k, v⟩ := p
    by_cases hk : k = a
    · subst hk
      simp [mapGet?] at h
      simp [mapSet, h]
    · simp [mapGet?, hk] at h
      simp [mapSet, hk, ih h]

theorem deleteIds_get (ids : List Nat) (l : List (Nat × Callback)) (a : Nat) :
    mapGet? (deleteIds l ids) a = if a ∈ ids then none else mapGet? l a := by
  induction ids generalizing l with
  | nil => simp [deleteIds]
  | cons i rest ih =>
    have hstep : deleteIds l (i :: rest) = deleteIds (mapDelete l i) rest := rfl
    rw [hstep, ih]
    by_cases h : a = i
    · subst h
      by_cases hr : a ∈ rest <;> simp [hr, mapGet?_mapDelete_self]
    · by_cases hr : a ∈ rest <;> simp [hr, h, mapGet?_mapDelete_ne l i a h]

theorem mem_setAdd (l : List Nat) (x y : Nat) : y ∈ setAdd l x ↔ y = x ∨ y ∈ l := by
  by_cases h : x ∈ l
  · simp [setAdd, h]
    intro hy
    subst hy
    exact h
  · simp [setAdd, h, or_comm]

theorem setAdd_self (l : List Nat) (x : Nat) : x ∈ setAdd l x := by
  simp [mem_setAdd]

theorem setAdd_of_not_mem (l : List Nat) (x : Nat) (h : x ∉ l) :
    setAdd l x = l ++ [x] := by
  simp [setAdd, h]

theorem mem_setDelete (l : List Nat) (x y : Nat) :
    y ∈ setDelete l x ↔ y ∈ l ∧ y ≠ x := by
  simp [setDelete, List.mem_filter]

theorem count_setDelete_self (l : List Nat) (x : Nat) :
    (setDelete l x).count x = 0 := by
  apply List.count_eq_zero.mpr
  simp [setDelete, List.mem_filter]

theorem count_setDelete_ne (l : List Nat) (x y : Nat) (h : y ≠ x) :
    (setDelete l x).count y = l.count y := by
  induction l with
  | nil => rfl
  | cons a rest ih =>
    by_cases ha : a = x
    · subst ha
      have hxy : ¬ (a = y) := fun hh => h hh.symm
      simpa [setDelete, List.filter_cons, List.count_cons, hxy] using ih
    · by_cases hay : a = y
      · subst hay
        simp [setDelete, List.filter_cons, ha, List.count_cons]
      · simpa [setDelete, List.filter_cons, ha, hay, List.count_cons] using ih

theorem count_setAdd_not_mem (l : List Nat) (x : Nat) (h : x ∉ l) :
    (setAdd l x).count x = l.count x + 1 := by
  simp [setAdd_of_not_mem l x h]

theorem count_eq_zero_of_not_mem {l : List Nat} {x : Nat} (h : x ∉ l) :
    l.count x = 0 :=
  List.count_eq_zero.mpr h

/-! ### Trie lemmas -/

theorem nodeAt?_nil (t : SubscriberNode) : nodeAt? t [] = some t := by
  cases t with
  | node ls cs => rfl

theorem nodeAt?_cons_none {cs : List (String × SubscriberNode)} {a : String}
    (ls : List Nat) (as : List String) (h : mapGet? cs a = none) :
    nodeAt? (.node ls cs) (a :: as) = none := by
  simp [nodeAt?, h]

theorem nodeAt?_cons_some {cs : List (String × SubscriberNode)} {a : String}
    {c : SubscriberNode} (ls : List Nat) (as : List String)
    (h : mapGet? cs a = some c) :
    nodeAt? (.node ls cs) (a :: as) = nodeAt? c as := by
  simp [nodeAt?, h]

theorem nodeListeners_of_none {t : SubscriberNode} {p : List String}
    (h : nodeAt? t p = none) : nodeListeners t p = [] := by
  simp [nodeListeners, h]

theorem nodeListeners_of_some {t n : SubscriberNode} {p : List String}
    (h : nodeAt? t p = some n) : nodeListeners t p = n.listeners := by
  simp [nodeListeners, h]

theorem nodeListeners_nil (ls : List Nat) (cs : List (String × SubscriberNode)) :
    nodeListeners (.node ls cs) [] = ls := by
  simp [nodeListeners_of_some (nodeAt?_nil _), SubscriberNode.listeners]

theorem nodeListeners_cons_none {cs : List (String × SubscriberNode)} {a : String}
    (ls : List Nat) (as : List String) (h : mapGet? cs a = none) :
    nodeListeners (.node ls cs) (a :: as) = [] :=
  nodeListeners_of_none (nodeAt?_cons_none ls as h)

theorem nodeListeners_cons_some {cs : List (String × SubscriberNode)} {a : String}
    {c : SubscriberNode} (ls : List Nat) (as : List String)
    (h : mapGet? cs a = some c) :
    nodeListeners (.node ls cs) (a :: as) = nodeListeners c as := by
  simp [nodeListeners, nodeAt?_cons_some ls as h]

theorem updateAt_nil (f : SubscriberNode → SubscriberNode) (t : SubscriberNode) :
    updateAt f t [] = f t := by
  cases t with
  | node ls cs => rfl

theorem updateAt_cons_none {cs : List (String × SubscriberNode)} {a : String}
    (f : SubscriberNode → SubscriberNode) (ls : List Nat) (as : List String)
    (h : mapGet? cs a = none) :
    updateAt f (.node ls cs) (a :: as) = .node ls cs := by
  simp [updateAt, h]

theorem updateAt_cons_some {cs : List (String × SubscriberNode)} {a : String}
    {c : SubscriberNode} (f : SubscriberNode → SubscriberNode) (ls : List Nat)
    (as : List String) (h : mapGet? cs a = some c) :
    updateAt f (.node ls cs) (a :: as) = .node ls (mapSet cs a (updateAt f c as)) := by
  simp [updateAt, h]

theorem nodeAt?_append (t : SubscriberNode) (p q : List String) :
    nodeAt? t (p ++ q) = (nodeAt? t p).bind (fun n => nodeAt? n q) := by
  induction p generalizing t with
  | nil => simp [nodeAt?_nil]
  | cons a as ih =>
    cases t with
    | node ls cs =>
      cases hc : mapGet? cs a with
      | none => simp [List.cons_append, nodeAt?_cons_none ls _ hc]
      | some c => simp [List.cons_append, nodeAt?_cons_some ls _ hc, ih c]

theorem isSome_of_mem_nodeListeners {t : SubscriberNode} {p : List String} {id : Nat}
    (h : id ∈ nodeListeners t p) : (nodeAt? t p).isSome = true := by
  cases hn : nodeAt? t p with
  | none => rw [nodeListeners_of_none hn] at h; simp at h
  | some n => simp

theorem isSome_nodeAt?_of_append {t : SubscriberNode} {p q : List String}
    (h : (nodeAt? t (p ++ q)).isSome = true) : (nodeAt? t p).isSome = true := by
  rw [nodeAt?_append] at h
  cases hn : nodeAt? t p with
  | none => rw [hn] at h; simp at h
  | some n => simp

theorem updateL_missing (g : List Nat → List Nat) (t : SubscriberNode)
    (path : List String) (h : nodeAt? t path = none) : updateL g t path = t := by
  induction path generalizing t with
  | nil => rw [nodeAt?_nil] at h; exact absurd h (by simp)
  | cons a as ih =>
    cases t with
    | node ls cs =>
      cases hc : mapGet? cs a with
      | none => exact updateAt_cons_none _ ls as hc
      | some c =>
        rw [nodeAt?_cons_some ls as hc] at h
        rw [updateL, updateAt_cons_some _ ls as hc]
        rw [show updateAt (fun n => SubscriberNode.node (g n.listeners) n.children) c as
              = updateL g c as from rfl, ih c h, mapSet_self cs a c hc]

theorem nodeAt?_isSome_updateL (g : List Nat → List Nat) (t : SubscriberNode)
    (path p : List String) :
    (nodeAt? (updateL g t path) p).isSome = (nodeAt? t p).isSome := by
  induction path generalizing t p with
  | nil =>
    cases t with
    | node ls cs =>
      rw [updateL, updateAt_nil]
      simp only [SubscriberNode.listeners, SubscriberNode.children]
      cases p with
      | nil => simp [nodeAt?_nil]
      | cons b bs =>
        cases hc : mapGet? cs b with
        | none =>
          rw [nodeAt?_cons_none _ bs hc, nodeAt?_cons_none ls bs hc]
        | some c =>
          rw [nodeAt?_cons_some _ bs hc, nodeAt?_cons_some ls bs hc]
  | cons a as ih =>
    cases t with
    | node ls cs =>
      rw [updateL]
      cases hc : mapGet? cs a with
      | none => rw [updateAt_cons_none _ ls as hc]
      | some c =>
        rw [updateAt_cons_some _ ls as hc]
        cases p with
        | nil => simp [nodeAt?_nil]
        | cons b bs =>
          by_cases hb : b = a
          · subst hb
            rw [nodeAt?_cons_some ls bs (mapGet?_mapSet_self cs b _),
              nodeAt?_cons_some ls bs hc]
            exact ih c bs
          · cases hcb : mapGet? cs b with
            | none =>
              rw [nodeAt?_cons_none _ bs (by rw [mapGet?_mapSet_ne cs a b _ hb]; exact hcb),
                nodeAt?_cons_none ls bs hcb]
            | some cb =>
              rw [nodeAt?_cons_some _ bs (by rw [mapGet?_mapSet_ne cs a b _ hb]; exact hcb),
                nodeAt?_cons_some ls bs hcb]

theorem nodeListeners_updateL (g : List Nat → List Nat) (t : SubscriberNode)
    (path p : List String) :
    nodeListeners (updateL g t path) p =
      if p = path ∧ (nodeAt? t path).isSome then g (nodeListeners t path)
      else nodeListeners t p := by
  induction path generalizing t p with
  | nil =>
    cases t with
    | node ls cs =>
      rw [updateL, updateAt_nil]
      simp only [SubscriberNode.listeners, SubscriberNode.children]
      cases p with
      | nil => simp [nodeListeners_nil, nodeAt?_nil]
      | cons b bs =>
        have hne : ¬ (b :: bs = ([] : List String)) := by simp
        rw [if_neg (by simp [hne])]
        cases hc : mapGet? cs b with
        | none =>
          rw [nodeListeners_cons_none _ bs hc, nodeListeners_cons_none ls bs hc]
        | some c =>
          rw [nodeListeners_cons_some _ bs hc, nodeListeners_cons_some ls bs hc]
  | cons a as ih =>
    cases t with
    | node ls cs =>
      rw [updateL]
      cases hc : mapGet? cs a with
      | none =>
        rw [updateAt_cons_none _ ls as hc,
          if_neg (by simp [nodeAt?_cons_none ls as hc])]
      | some c =>
        rw [updateAt_cons_some _ ls as hc]
        cases p with
        | nil =>
          rw [nodeListeners_nil, if_neg (by simp), nodeListeners_nil]
        | cons b bs =>
          by_cases hb : b = a
          · subst hb
            rw [nodeListeners_cons_some ls bs (mapGet?_mapSet_self cs b _)]
            rw [show updateAt (fun n => SubscriberNode.node (g n.listeners) n.children) c as
                  = updateL g c as from rfl]
            rw [ih c bs]
            rw [nodeAt?_cons_some ls as hc, nodeListeners_cons_some ls bs hc,
              nodeListeners_cons_some ls as hc]
            by_cases hbs : bs = as
            · subst hbs
              simp
            · rw [if_neg (by simp [hbs]), if_neg (by simp [hbs])]
          · rw [if_neg (by simp [hb])]
            cases hcb : mapGet? cs b with
            | none =>
              have h1 : mapGet? (mapSet cs a (updateAt
                  (fun n => SubscriberNode.node (g n.listeners) n.children) c as)) b =
                  none := by
                rw [mapGet?_mapSet_ne cs a b _ hb]
                exact hcb
              rw [nodeListeners_cons_none ls bs h1, nodeListeners_cons_none ls bs hcb]
            | some cb =>
              have h1 : mapGet? (mapSet cs a (updateAt
                  (fun n => SubscriberNode.node (g n.listeners) n.children) c as)) b =
                  some cb := by
                rw [mapGet?_mapSet_ne cs a b _ hb]
                exact hcb
              rw [nodeListeners_cons_some ls bs h1, nodeListeners_cons_some ls bs hcb]

/-! ### Occurrence counting -/

theorem occ_node (id : Nat) (ls : List Nat) (cs : List (String × SubscriberNode)) :
    occCount id (.node ls cs) = ls.count id + occCountChildren id cs := by
  rw [occCount]

theorem occCh_cons (id : Nat) (k : String) (c : SubscriberNode)
    (rest : List (String × SubscriberNode)) :
    occCountChildren id ((k, c) :: rest) = occCount id c + occCountChildren id rest := by
  rw [occCountChildren]

theorem occ_le_occCh {cs : List (String × SubscriberNode)} {a : String}
    {c : SubscriberNode} (id : Nat) (h : mapGet? cs a = some c) :
    occCount id c ≤ occCountChildren id cs := by
  induction cs with
  | nil => simp [mapGet?] at h
  | cons p rest ih =>
    obtain ⟨k, v⟩ := p
    rw [occCh_cons]
    by_cases hk : k = a
    · simp [mapGet?, hk] at h
      subst h
      omega
    · simp [mapGet?, hk] at h
      have := ih h
      omega

theorem count_nodeListeners_le_occ (id : Nat) (t : SubscriberNode) (p : List String) :
    (nodeListeners t p).count id ≤ occCount id t := by
  induction p generalizing t with
  | nil =>
    cases t with
    | node ls cs => rw [nodeListeners_nil, occ_node]; omega
  | cons a as ih =>
    cases t with
    | node ls cs =>
      cases hc : mapGet? cs a with
      | none => simp [nodeListeners_cons_none ls as hc]
      | some c =>
        rw [nodeListeners_cons_some ls as hc, occ_node]
        have h1 := ih c
        have h2 := occ_le_occCh id hc
        omega

theorem occCh_mapSet {cs : List (String × SubscriberNode)} {a : String}
    {c : SubscriberNode} (id : Nat) (c2 : SubscriberNode) (h : mapGet? cs a = some c) :
    occCountChildren id (mapSet cs a c2) + occCount id c =
      occCountChildren id cs + occCount id c2 := by
  induction cs with
  | nil => simp [mapGet?] at h
  | cons p rest ih =>
    obtain ⟨k, v⟩ := p
    by_cases hk : k = a
    · simp [mapGet?, hk] at h
      subst h
      simp [mapSet, hk, occCh_cons]
      omega
    · simp [mapGet?, hk] at h
      simp [mapSet, hk, occCh_cons]
      have := ih h
      omega

theorem occ_updateL (g : List Nat → List Nat) (id : Nat) (t : SubscriberNode)
    (path : List String) (h : (nodeAt? t path).isSome = true) :
    occCount id (updateL g t path) + (nodeListeners t path).count id =
      occCount id t + (g (nodeListeners t path)).count id := by
  induction path generalizing t with
  | nil =>
    cases t with
    | node ls cs =>
      rw [updateL, updateAt_nil]
      simp only [SubscriberNode.listeners, SubscriberNode.children]
      rw [nodeListeners_nil, occ_node, occ_node]
      omega
  | cons a as ih =>
    cases t with
    | node ls cs =>
      cases hc : mapGet? cs a with
      | none =>
        rw [nodeAt?_cons_none ls as hc] at h
        simp at h
      | some c =>
        rw [nodeAt?_cons_some ls as hc] at h
        rw [updateL, updateAt_cons_some _ ls as hc]
        rw [show updateAt (fun n => SubscriberNode.node (g n.listeners) n.children) c as
              = updateL g c as from rfl]
        rw [occ_node, occ_node, nodeListeners_cons_some ls as hc]
        have h1 := occCh_mapSet id (updateL g c as) hc
        have h2 := ih c h
        omega

theorem occ_eraseAt_le (i j : Nat) (t : SubscriberNode) (path : List String) :
    occCount i (eraseAt j t path) ≤ occCount i t := by
  cases hs : nodeAt? t path with
  | none => rw [eraseAt, updateL_missing _ _ _ hs]
  | some n =>
    have h := occ_updateL (fun ls => setDelete ls j) i t path (by rw [hs]; rfl)
    rw [eraseAt] at *
    by_cases hij : i = j
    · subst hij
      rw [count_setDelete_self] at h
      omega
    · rw [count_setDelete_ne _ j i hij] at h
      omega

theorem occ_eraseAt_ne (i j : Nat) (t : SubscriberNode) (path : List String)
    (hij : i ≠ j) : occCount i (eraseAt j t path) = occCount i t := by
  cases hs : nodeAt? t path with
  | none => rw [eraseAt, updateL_missing _ _ _ hs]
  | some n =>
    have h := occ_updateL (fun ls => setDelete ls j) i t path (by rw [hs]; rfl)
    rw [eraseAt, count_setDelete_ne _ j i hij] at *
    omega

theorem occ_eraseAt_removes (id : Nat) (t : SubscriberNode) (path : List String)
    (h : id ∈ nodeListeners t path) :
    occCount id (eraseAt id t path) + 1 ≤ occCount id t := by
  have hs : (nodeAt? t path).isSome = true := isSome_of_mem_nodeListeners h
  have heq := occ_updateL (fun ls => setDelete ls id) id t path hs
  rw [count_setDelete_self] at heq
  have hpos : 0 < (nodeListeners t path).count id := List.count_pos_iff.mpr h
  rw [eraseAt]
  omega

theorem occ_addAt_fresh (id : Nat) (t : SubscriberNode) (path : List String)
    (hs : (nodeAt? t path).isSome = true) (hnm : id ∉ nodeListeners t path) :
    occCount id (addAt id t path) = occCount id t + 1 := by
  have heq := occ_updateL (fun ls => setAdd ls id) id t path hs
  rw [count_setAdd_not_mem _ _ hnm, count_eq_zero_of_not_mem hnm] at heq
  rw [addAt]
  omega

theorem not_mem_nodeListeners_of_occ_zero {id : Nat} {t : SubscriberNode}
    (p : List String) (h : occCount id t = 0) : id ∉ nodeListeners t p := by
  intro hm
  have h1 := count_nodeListeners_le_occ id t p
  have h2 : 0 < (nodeListeners t p).count id := List.count_pos_iff.mpr hm
  omega

/-! ### navigateCreate lemmas -/

theorem navigateCreate_nil (t : SubscriberNode) : navigateCreate t [] = t := by
  cases t with
  | node ls cs => rfl

theorem navigateCreate_cons_some {cs : List (String × SubscriberNode)} {a : String}
    {c : SubscriberNode} (ls : List Nat) (as : List String)
    (h : mapGet? cs a = some c) :
    navigateCreate (.node ls cs) (a :: as) =
      .node ls (mapSet cs a (navigateCreate c as)) := by
  simp [navigateCreate, h]

theorem navigateCreate_cons_none {cs : List (String × SubscriberNode)} {a : String}
    (ls : List Nat) (as : List String) (h : mapGet? cs a = none) :
    navigateCreate (.node ls cs) (a :: as) =
      .node ls (mapSet cs a (navigateCreate (.node [] []) as)) := by
  simp [navigateCreate, h]

theorem navigateCreate_isSome (t : SubscriberNode) (parts : List String) :
    (nodeAt? (navigateCreate t parts) parts).isSome = true := by
  induction parts generalizing t with
  | nil =>
    rw [navigateCreate_nil, nodeAt?_nil]
    rfl
  | cons a as ih =>
    cases t with
    | node ls cs =>
      cases hc : mapGet? cs a with
      | some c =>
        rw [navigateCreate_cons_some ls as hc,
          nodeAt?_cons_some ls as (mapGet?_mapSet_self cs a _)]
        exact ih c
      | none =>
        rw [navigateCreate_cons_none ls as hc,
          nodeAt?_cons_some ls as (mapGet?_mapSet_self cs a _)]
        exact ih (.node [] [])

theorem nodeListeners_createEmpty (as bs : List String) :
    nodeListeners (navigateCreate (.node [] []) as) bs = [] := by
  induction as generalizing bs with
  | nil =>
    rw [navigateCreate_nil]
    cases bs with
    | nil => rw [nodeListeners_nil]
    | cons b bs2 => exact nodeListeners_cons_none [] bs2 rfl
  | cons a as2 ih =>
    rw [navigateCreate_cons_none [] as2 (show mapGet? ([] : List (String × SubscriberNode)) _ = none from rfl)]
    cases bs with
    | nil => rw [nodeListeners_nil]
    | cons b bs2 =>
      by_cases hb : b = a
      · subst hb
        rw [nodeListeners_cons_some [] bs2 (mapGet?_mapSet_self [] b _)]
        exact ih bs2
      · refine nodeListeners_cons_none [] bs2 ?_
        rw [mapGet?_mapSet_ne [] a b _ hb]
        rfl

theorem nodeListeners_navigateCreate (t : SubscriberNode) (parts p : List String) :
    nodeListeners (navigateCreate t parts) p = nodeListeners t p := by
  induction parts generalizing t p with
  | nil => rw [navigateCreate_nil]
  | cons a as ih =>
    cases t with
    | node ls cs =>
      cases hc : mapGet? cs a with
      | some c =>
        rw [navigateCreate_cons_some ls as hc]
        cases p with
        | nil => rw [nodeListeners_nil, nodeListeners_nil]
        | cons b bs =>
          by_cases hb : b = a
          · subst hb
            rw [nodeListeners_cons_some ls bs (mapGet?_mapSet_self cs b _),
              nodeListeners_cons_some ls bs hc]
            exact ih c bs
          · have h1 : mapGet? (mapSet cs a (navigateCreate c as)) b = mapGet? cs b := by
              rw [mapGet?_mapSet_ne cs a b _ hb]
            cases hcb : mapGet? cs b with
            | none =>
              rw [nodeListeners_cons_none ls bs (h1.trans hcb),
                nodeListeners_cons_none ls bs hcb]
            | some cb =>
              rw [nodeListeners_cons_some ls bs (h1.trans hcb),
                nodeListeners_cons_some ls bs hcb]
      | none =>
        rw [navigateCreate_cons_none ls as hc]
        cases p with
        | nil => rw [nodeListeners_nil, nodeListeners_nil]
        | cons b bs =>
          by_cases hb : b = a
          · subst hb
            rw [nodeListeners_cons_some ls bs (mapGet?_mapSet_self cs b _),
              nodeListeners_cons_none ls bs hc]
            exact nodeListeners_createEmpty as bs
          · have h1 : mapGet? (mapSet cs a (navigateCreate (.node [] []) as)) b =
                mapGet? cs b := by
              rw [mapGet?_mapSet_ne cs a b _ hb]
            cases hcb : mapGet? cs b with
            | none =>
              rw [nodeListeners_cons_none ls bs (h1.trans hcb),
                nodeListeners_cons_none ls bs hcb]
            | some cb =>
              rw [nodeListeners_cons_some ls bs (h1.trans hcb),
                nodeListeners_cons_some ls bs hcb]

theorem mapSet_append {α β : Type} [DecidableEq α] (l : List (α × β)) (a : α) (b : β)
    (h : mapGet? l a = none) : mapSet l a b = l ++ [(a, b)] := by
  induction l with
  | nil => rfl
  | cons p rest ih =>
    obtain ⟨k, v⟩ := p
    by_cases hk : k = a
    · simp [mapGet?, hk] at h
    · simp [mapGet?, hk] at h
      simp [mapSet, hk, ih h]

theorem occCh_append (id : Nat) (l1 l2 : List (String × SubscriberNode)) :
    occCountChildren id (l1 ++ l2) =
      occCountChildren id l1 + occCountChildren id l2 := by
  induction l1 with
  | nil => simp [occCountChildren]
  | cons p rest ih =>
    obtain ⟨k, v⟩ := p
    simp only [List.cons_append, occCh_cons, ih]
    omega

theorem occ_createEmpty (id : Nat) (as : List String) :
    occCount id (navigateCreate (.node [] []) as) = 0 := by
  induction as with
  | nil => rw [navigateCreate_nil, occ_node]; rfl
  | cons a as2 ih =>
    rw [navigateCreate_cons_none [] as2
      (show mapGet? ([] : List (String × SubscriberNode)) _ = none from rfl), occ_node]
    have : mapSet ([] : List (String × SubscriberNode)) a
        (navigateCreate (.node [] []) as2) = [(a, navigateCreate (.node [] []) as2)] := rfl
    rw [this, occCh_cons, ih]
    rfl

theorem occ_navigateCreate (id : Nat) (t : SubscriberNode) (parts : List String) :
    occCount id (navigateCreate t parts) = occCount id t := by
  induction parts generalizing t with
  | nil => rw [navigateCreate_nil]
  | cons a as ih =>
    cases t with
    | node ls cs =>
      cases hc : mapGet? cs a with
      | some c =>
        rw [navigateCreate_cons_some ls as hc, occ_node, occ_node]
        have h1 := occCh_mapSet id (navigateCreate c as) hc
        have h2 := ih c
        omega
      | none =>
        rw [navigateCreate_cons_none ls as hc, occ_node, occ_node,
          mapSet_append cs a _ hc, occCh_append, occCh_cons, occ_createEmpty]
        simp [occCountChildren]

/-! ### Splitting is never empty -/

theorem splitAux_ne_nil (sep : List Char) (fuel : Nat) (l : List Char) :
    splitAux sep fuel l ≠ [] := by
  cases fuel with
  | zero => cases l <;> simp [splitAux]
  | succ f =>
    cases l with
    | nil => simp [splitAux]
    | cons c rest =>
      rw [splitAux]
      by_cases h : sep.isPrefixOf (c :: rest) = true
      · simp [h]
      · simp only [h]
        simp only [Bool.false_eq_true, if_false]
        cases hs : splitAux sep f rest <;> simp

theorem splitString_cons (s sep : String) :
    ∃ c cs, splitString s sep = c :: cs := by
  unfold splitString
  cases hs : splitAux sep.data s.data.length s.data with
  | nil => exact absurd hs (splitAux_ne_nil _ _ _)
  | cons a b => exact ⟨String.mk a, b.map (fun l => String.mk l), rfl⟩

/-! ### Bounded ids -/

mutual

theorem occ_eq_zero_of_idsBelow (b j : Nat) (hj : b ≤ j) :
    ∀ t, idsBelow b t = true → occCount j t = 0
  | .node ls cs, ht => by
    rw [idsBelow, Bool.and_eq_true] at ht
    rw [occ_node]
    have h1 : j ∉ ls := by
      intro hm
      have h2 := List.all_eq_true.mp ht.1 j hm
      simp at h2
      omega
    rw [count_eq_zero_of_not_mem h1,
      occCh_eq_zero_of_idsBelowChildren b j hj cs ht.2]

theorem occCh_eq_zero_of_idsBelowChildren (b j : Nat) (hj : b ≤ j) :
    ∀ cs, idsBelowChildren b cs = true → occCountChildren j cs = 0
  | [], _ => rfl
  | (k, c) :: rest, h => by
    rw [idsBelowChildren, Bool.and_eq_true] at h
    rw [occCh_cons, occ_eq_zero_of_idsBelow b j hj c h.1,
      occCh_eq_zero_of_idsBelowChildren b j hj rest h.2]

end

/-! ### removeSubscribers lemmas -/

theorem removeSubscribers_nilp (ls : List Nat) (cs : List (String × SubscriberNode)) :
    removeSubscribers (.node ls cs) [] = (.node [] cs, ls) := rfl

theorem removeSubscribers_cons_none {cs : List (String × SubscriberNode)} {a : String}
    (ls : List Nat) (as : List String) (h : mapGet? cs a = none) :
    removeSubscribers (.node ls cs) (a :: as) = (.node ls cs, []) := by
  simp [removeSubscribers, h]

theorem removeSubscribers_cons_some_nil {cs : List (String × SubscriberNode)}
    {a : String} {c : SubscriberNode} (ls : List Nat) (h : mapGet? cs a = some c) :
    removeSubscribers (.node ls cs) [a] =
      (.node ls (mapDelete cs a), (removeSubscribers c []).2) := by
  simp [removeSubscribers, h]

theorem removeSubscribers_cons_some_cons {cs : List (String × SubscriberNode)}
    {a : String} {c : SubscriberNode} (ls : List Nat) (as : List String)
    (h : mapGet? cs a = some c) (hne : as ≠ []) :
    removeSubscribers (.node ls cs) (a :: as) =
      (.node ls (mapSet cs a (removeSubscribers c as).1),
        (removeSubscribers c as).2) := by
  simp [removeSubscribers, h, hne]

theorem removeSubscribers_ids (n : SubscriberNode) (parts : List String) :
    (removeSubscribers n parts).2 = nodeListeners n parts := by
  induction parts generalizing n with
  | nil =>
    cases n with
    | node ls cs => rw [removeSubscribers_nilp, nodeListeners_nil]
  | cons a as ih =>
    cases n with
    | node ls cs =>
      cases hc : mapGet? cs a with
      | none =>
        rw [removeSubscribers_cons_none ls as hc, nodeListeners_cons_none ls as hc]
      | some c =>
        rw [nodeListeners_cons_some ls as hc]
        cases has : as with
        | nil =>
          subst has
          rw [removeSubscribers_cons_some_nil ls hc]
          exact ih c
        | cons x xs =>
          rw [← has, removeSubscribers_cons_some_cons ls as hc (by rw [has]; simp)]
          exact ih c

theorem removeSubscribers_missing (n : SubscriberNode) (parts : List String)
    (h : nodeAt? n parts = none) : removeSubscribers n parts = (n, []) := by
  induction parts generalizing n with
  | nil => rw [nodeAt?_nil] at h; exact absurd h (by simp)
  | cons a as ih =>
    cases n with
    | node ls cs =>
      cases hc : mapGet? cs a with
      | none => exact removeSubscribers_cons_none ls as hc
      | some c =>
        rw [nodeAt?_cons_some ls as hc] at h
        cases has : as with
        | nil => rw [has, nodeAt?_nil] at h; exact absurd h (by simp)
        | cons x xs =>
          rw [← has, removeSubscribers_cons_some_cons ls as hc (by rw [has]; simp),
            ih c h, mapSet_self cs a c hc]

theorem occCh_mapDelete_le (id : Nat) (cs : List (String × SubscriberNode)) (a : String) :
    occCountChildren id (mapDelete cs a) ≤ occCountChildren id cs := by
  induction cs with
  | nil => simp [mapDelete]
  | cons p rest ih =>
    obtain ⟨k, v⟩ := p
    by_cases hk : k = a
    · have h1 : mapDelete ((k, v) :: rest) a = mapDelete rest a := by
        simp [mapDelete, List.filter_cons, hk]
      rw [h1, occCh_cons]
      omega
    · have h1 : mapDelete ((k, v) :: rest) a = (k, v) :: mapDelete rest a := by
        simp [mapDelete, List.filter_cons, hk]
      rw [h1, occCh_cons, occCh_cons]
      omega

theorem occCh_mapDelete {cs : List (String × SubscriberNode)} {a : String}
    {c : SubscriberNode} (id : Nat) (h : mapGet? cs a = some c) :
    occCountChildren id (mapDelete cs a) + occCount id c ≤
      occCountChildren id cs := by
  induction cs with
  | nil => simp [mapGet?] at h
  | cons p rest ih =>
    obtain ⟨k, v⟩ := p
    by_cases hk : k = a
    · simp [mapGet?, hk] at h
      subst h
      have h1 : mapDelete ((k, v) :: rest) a = mapDelete rest a := by
        simp [mapDelete, List.filter_cons, hk]
      rw [h1, occCh_cons]
      have := occCh_mapDelete_le id rest a
      omega
    · simp [mapGet?, hk] at h
      have h1 : mapDelete ((k, v) :: rest) a = (k, v) :: mapDelete rest a := by
        simp [mapDelete, List.filter_cons, hk]
      rw [h1, occCh_cons, occCh_cons]
      have := ih h
      omega

theorem occ_removeSubscribers_add (id : Nat) (n : SubscriberNode)
    (parts : List String) :
    occCount id (removeSubscribers n parts).1 + (nodeListeners n parts).count id ≤
      occCount id n := by
  induction parts generalizing n with
  | nil =>
    cases n with
    | node ls cs =>
      rw [removeSubscribers_nilp, nodeListeners_nil, occ_node, occ_node]
      simp only [List.count_nil]
      omega
  | cons a as ih =>
    cases n with
    | node ls cs =>
      cases hc : mapGet? cs a with
      | none =>
        rw [removeSubscribers_cons_none ls as hc, nodeListeners_cons_none ls as hc]
        simp
      | some c =>
        rw [nodeListeners_cons_some ls as hc]
        cases has : as with
        | nil =>
          rw [removeSubscribers_cons_some_nil ls hc, occ_node, occ_node]
          have h1 := occCh_mapDelete id hc
          have h2 := ih c
          rw [has] at h2
          omega
        | cons x xs =>
          rw [← has, removeSubscribers_cons_some_cons ls as hc (by rw [has]; simp),
            occ_node, occ_node]
          have h1 := occCh_mapSet id (removeSubscribers c as).1 hc
          have h2 := ih c
          omega

theorem occ_removeSubscribers_le (id : Nat) (n : SubscriberNode)
    (parts : List String) :
    occCount id (removeSubscribers n parts).1 ≤ occCount id n := by
  have := occ_removeSubscribers_add id n parts
  omega

theorem removeSubscribers_unlinks (n : SubscriberNode) (parts : List String)
    (hne : parts ≠ []) (hs : (nodeAt? n parts).isSome = true) :
    nodeAt? (removeSubscribers n parts).1 parts = none := by
  induction parts generalizing n with
  | nil => exact absurd rfl hne
  | cons a as ih =>
    cases n with
    | node ls cs =>
      cases hc : mapGet? cs a with
      | none =>
        rw [nodeAt?_cons_none ls as hc] at hs
        simp at hs
      | some c =>
        rw [nodeAt?_cons_some ls as hc] at hs
        cases has : as with
        | nil =>
          subst has
          rw [removeSubscribers_cons_some_nil ls hc]
          exact nodeAt?_cons_none ls [] (mapGet?_mapDelete_self cs a)
        | cons x xs =>
          rw [← has, removeSubscribers_cons_some_cons ls as hc (by rw [has]; simp)]
          rw [nodeAt?_cons_some ls as (mapGet?_mapSet_self cs a _)]
          exact ih c (by rw [has]; simp) hs

theorem StepSpec.base (s : State) : StepSpec s s [] where
  processed := by simp
  regSame := fun _ _ => rfl
  onceSame := fun _ _ => Iff.rfl
  regMono := fun _ h => h
  onceMono := fun _ h => h
  onceRemoved := fun id hid => absurd hid (List.not_mem_nil id)
  shape := fun _ => rfl
  occMono := fun _ => Nat.le.refl
  occOnce := fun id hid => absurd hid (List.not_mem_nil id)
  invSound := fun id hid => absurd hid (List.not_mem_nil id)
  invNodup := List.nodup_nil
  memPreserved := fun _ _ _ => Iff.rfl
  countSame := rfl
  retainedSame := rfl
  delimSame := rfl
  noInv := fun _ => rfl

theorem StepSpec.trans {s s2 s3 : State} {i1 i2 : List Nat}
    (h1 : StepSpec s s2 i1) (h2 : StepSpec s2 s3 i2) :
    StepSpec s s3 (i1 ++ i2) where
  processed := by rw [h2.processed, h1.processed, List.append_assoc]
  regSame := fun id hid => by
    rw [h2.regSame id (fun hm => hid (List.mem_append.mpr (Or.inr hm))),
      h1.regSame id (fun hm => hid (List.mem_append.mpr (Or.inl hm)))]
  onceSame := fun id hid =>
    (h2.onceSame id (fun hm => hid (List.mem_append.mpr (Or.inr hm)))).trans
      (h1.onceSame id (fun hm => hid (List.mem_append.mpr (Or.inl hm))))
  regMono := fun id h => h2.regMono id (h1.regMono id h)
  onceMono := fun id h => h2.onceMono id (h1.onceMono id h)
  onceRemoved := fun id hid hio => by
    rcases List.mem_append.mp hid with hm | hm
    · have hr := h1.onceRemoved id hm hio
      exact ⟨h2.regMono id hr.1, h2.onceMono id hr.2⟩
    · by_cases hm1 : id ∈ i1
      · have hr := h1.onceRemoved id hm1 hio
        exact ⟨h2.regMono id hr.1, h2.onceMono id hr.2⟩
      · have hio2 : id ∈ s2.onceListeners := (h1.onceSame id hm1).mpr hio
        exact h2.onceRemoved id hm hio2
  shape := fun p => (h2.shape p).trans (h1.shape p)
  occMono := fun id => Nat.le_trans (h2.occMono id) (h1.occMono id)
  occOnce := fun id hid hio => by
    rcases List.mem_append.mp hid with hm | hm
    · exact Nat.le_trans (Nat.add_le_add_right (h2.occMono id) 1)
        (h1.occOnce id hm hio)
    · by_cases hm1 : id ∈ i1
      · exact Nat.le_trans (Nat.add_le_add_right (h2.occMono id) 1)
          (h1.occOnce id hm1 hio)
      · have hio2 : id ∈ s2.onceListeners := (h1.onceSame id hm1).mpr hio
        exact Nat.le_trans (h2.occOnce id hm hio2) (h1.occMono id)
  invSound := fun id hid => by
    rcases List.mem_append.mp hid with hm | hm
    · exact h1.invSound id hm
    · have hs2 := h2.invSound id hm
      constructor
      · by_cases hm1 : id ∈ i1
        · exact (h1.invSound id hm1).1
        · rw [h1.regSame id hm1] at hs2
          exact hs2.1
      · intro hp
        exact hs2.2 (by
          rw [h1.processed]
          exact List.mem_append.mpr (Or.inl hp))
  invNodup := by
    refine List.Nodup.append h1.invNodup h2.invNodup ?_
    intro a ha1 ha2
    have hp1 : a ∈ s2.processedListeners := by
      rw [h1.processed]
      exact List.mem_append.mpr (Or.inr ha1)
    exact (h2.invSound a ha2).2 hp1
  memPreserved := fun id p hid =>
    (h2.memPreserved id p (fun hm => hid (List.mem_append.mpr (Or.inr hm)))).trans
      (h1.memPreserved id p (fun hm => hid (List.mem_append.mpr (Or.inl hm))))
  countSame := h2.countSame.trans h1.countSame
  retainedSame := h2.retainedSame.trans h1.retainedSame
  delimSame := h2.delimSame.trans h1.delimSame
  noInv := fun h => by
    rcases List.append_eq_nil.mp h with ⟨e1, e2⟩
    rw [h2.noInv e2, h1.noInv e1]

theorem invokeState_once (path : List String) (id : Nat) (s : State)
    (hio : id ∈ s.onceListeners) :
    invokeState path id s =
      { s with
        processedListeners := setAdd s.processedListeners id
        listeners := mapDelete s.listeners id
        onceListeners := setDelete s.onceListeners id
        subscribers := eraseAt id s.subscribers path } := by
  simp [invokeState, hio]

theorem invokeState_many (path : List String) (id : Nat) (s : State)
    (hio : id ∉ s.onceListeners) :
    invokeState path id s =
      { s with processedListeners := setAdd s.processedListeners id } := by
  simp [invokeState, hio]

theorem invokeState_spec (path : List String) (id : Nat) (s : State) (cb : Callback)
    (hproc : id ∉ s.processedListeners)
    (hreg : mapGet? s.listeners id = some cb)
    (hmem : id ∈ s.onceListeners → id ∈ nodeListeners s.subscribers path) :
    StepSpec s (invokeState path id s) [id] := by
  by_cases hio : id ∈ s.onceListeners
  · rw [invokeState_once path id s hio]
    exact
      { processed := by simp [setAdd_of_not_mem _ _ hproc]
        regSame := fun j hj => mapGet?_mapDelete_ne _ id j (by simpa using hj)
        onceSame := fun j hj => by
          rw [mem_setDelete]
          constructor
          · exact fun hx => hx.1
          · exact fun hx => ⟨hx, by simpa using hj⟩
        regMono := fun j hj => by
          by_cases hji : j = id
          · subst hji
            exact mapGet?_mapDelete_self _ j
          · rw [mapGet?_mapDelete_ne _ id j hji]
            exact hj
        onceMono := fun j hj hx => hj (mem_setDelete _ _ _ |>.mp hx).1
        onceRemoved := fun j hj _ => by
          have hji : j = id := by simpa using hj
          subst hji
          refine ⟨mapGet?_mapDelete_self _ j, ?_⟩
          intro hx
          exact (mem_setDelete _ _ _ |>.mp hx).2 rfl
        shape := fun p => nodeAt?_isSome_updateL _ _ path p
        occMono := fun j => occ_eraseAt_le j id _ path
        occOnce := fun j hj _ => by
          have hji : j = id := by simpa using hj
          subst hji
          exact occ_eraseAt_removes j _ path (hmem hio)
        invSound := fun j hj => by
          have hji : j = id := by simpa using hj
          subst hji
          exact ⟨by rw [hreg]; rfl, hproc⟩
        invNodup := List.nodup_singleton id
        memPreserved := fun j p hj => by
          have hji : j ≠ id := by simpa using hj
          show j ∈ nodeListeners (eraseAt id s.subscribers path) p ↔ _
          rw [eraseAt, nodeListeners_updateL]
          by_cases hcond : p = path ∧ (nodeAt? s.subscribers path).isSome = true
          · obtain ⟨hp, hs⟩ := hcond
            subst hp
            rw [if_pos ⟨rfl, hs⟩, mem_setDelete]
            simp [hji]
          · rw [if_neg hcond]
        countSame := rfl
        retainedSame := rfl
        delimSame := rfl
        noInv := fun h => absurd h (by simp) }
  · rw [invokeState_many path id s hio]
    exact
      { processed := by simp [setAdd_of_not_mem _ _ hproc]
        regSame := fun _ _ => rfl
        onceSame := fun _ _ => Iff.rfl
        regMono := fun _ hj => hj
        onceMono := fun _ hj => hj
        onceRemoved := fun j hj hx => by
          have hji : j = id := by simpa using hj
          subst hji
          exact absurd hx hio
        shape := fun _ => rfl
        occMono := fun _ => Nat.le.refl
        occOnce := fun j hj hx => by
          have hji : j = id := by simpa using hj
          subst hji
          exact absurd hx hio
        invSound := fun j hj => by
          have hji : j = id := by simpa using hj
          subst hji
          exact ⟨by rw [hreg]; rfl, hproc⟩
        invNodup := List.nodup_singleton id
        memPreserved := fun _ _ _ => Iff.rfl
        countSame := rfl
        retainedSame := rfl
        delimSame := rfl
        noInv := fun h => absurd h (by simp) }

theorem processIds_nil (env : Env) (ev : IEvent) (path : List String) (s : State) :
    processIds env ev path [] s = (s, [], []) := rfl

theorem processIds_cons_skip (env : Env) (ev : IEvent) (path : List String)
    (id : Nat) (rest : List Nat) (s : State) (h : id ∈ s.processedListeners) :
    processIds env ev path (id :: rest) s = processIds env ev path rest s := by
  simp [processIds, h]

theorem processIds_cons_gone (env : Env) (ev : IEvent) (path : List String)
    (id : Nat) (rest : List Nat) (s : State) (h1 : id ∉ s.processedListeners)
    (h2 : mapGet? s.listeners id = none) :
    processIds env ev path (id :: rest) s = processIds env ev path rest s := by
  simp [processIds, h1, h2]

theorem processIds_cons_invoke (env : Env) (ev : IEvent) (path : List String)
    (id : Nat) (rest : List Nat) (s : State) (cb : Callback)
    (h1 : id ∉ s.processedListeners) (h2 : mapGet? s.listeners id = some cb) :
    processIds env ev path (id :: rest) s =
      ((processIds env ev path rest (invokeState path id s)).1,
        id :: (processIds env ev path rest (invokeState path id s)).2.1,
        env cb ev :: (processIds env ev path rest (invokeState path id s)).2.2) := by
  simp [processIds, h1, h2]

theorem invokeState_processed (path : List String) (id : Nat) (s : State)
    (hproc : id ∉ s.processedListeners) :
    (invokeState path id s).processedListeners = s.processedListeners ++ [id] := by
  by_cases hio : id ∈ s.onceListeners
  · rw [invokeState_once path id s hio]
    exact setAdd_of_not_mem _ _ hproc
  · rw [invokeState_many path id s hio]
    exact setAdd_of_not_mem _ _ hproc

theorem invokeState_nodeListeners (path : List String) (id : Nat) (s : State)
    (p : List String) (hp : p ≠ path ∨ id ∉ s.onceListeners) :
    nodeListeners (invokeState path id s).subscribers p =
      nodeListeners s.subscribers p := by
  by_cases hio : id ∈ s.onceListeners
  · rw [invokeState_once path id s hio]
    show nodeListeners (eraseAt id s.subscribers path) p = _
    rw [eraseAt, nodeListeners_updateL]
    rcases hp with hp | hp
    · rw [if_neg (fun hx => hp hx.1)]
    · exact absurd hio hp
  · rw [invokeState_many path id s hio]

theorem invokeState_nodeListeners_once (path : List String) (id : Nat) (s : State)
    (hio : id ∈ s.onceListeners) (hs : (nodeAt? s.subscribers path).isSome = true) :
    nodeListeners (invokeState path id s).subscribers path =
      setDelete (nodeListeners s.subscribers path) id := by
  rw [invokeState_once path id s hio]
  show nodeListeners (eraseAt id s.subscribers path) path = _
  rw [eraseAt, nodeListeners_updateL, if_pos ⟨rfl, hs⟩]

theorem processIds_spec (env : Env) (ev : IEvent) (path : List String) :
    ∀ (ids : List Nat) (s : State),
    (∀ j ∈ ids, j ∉ s.processedListeners → j ∈ nodeListeners s.subscribers path) →
    StepSpec s (processIds env ev path ids s).1 (processIds env ev path ids s).2.1
  | [], s, _ => by
    rw [processIds_nil]
    exact StepSpec.base s
  | id :: rest, s, hids => by
    by_cases h1 : id ∈ s.processedListeners
    · rw [processIds_cons_skip env ev path id rest s h1]
      exact processIds_spec env ev path rest s
        (fun j hj => hids j (List.mem_cons_of_mem _ hj))
    · cases h2 : mapGet? s.listeners id with
      | none =>
        rw [processIds_cons_gone env ev path id rest s h1 h2]
        exact processIds_spec env ev path rest s
          (fun j hj => hids j (List.mem_cons_of_mem _ hj))
      | some cb =>
        rw [processIds_cons_invoke env ev path id rest s cb h1 h2]
        have hmem : id ∈ s.onceListeners → id ∈ nodeListeners s.subscribers path :=
          fun _ => hids id (List.mem_cons_self _ _) h1
        have hstep := invokeState_spec path id s cb h1 h2 hmem
        have hids2 : ∀ j ∈ rest, j ∉ (invokeState path id s).processedListeners →
            j ∈ nodeListeners (invokeState path id s).subscribers path := by
          intro j hj hjp
          rw [invokeState_processed path id s h1] at hjp
          have hj1 : j ∉ s.processedListeners :=
            fun hx => hjp (List.mem_append.mpr (Or.inl hx))
          have hj2 : j ≠ id := by
            intro hx
            exact hjp (List.mem_append.mpr (Or.inr (by simp [hx])))
          have hjmem := hids j (List.mem_cons_of_mem id hj) hj1
          by_cases hio : id ∈ s.onceListeners
          · have hs : (nodeAt? s.subscribers path).isSome = true :=
              isSome_of_mem_nodeListeners (hids id (List.mem_cons_self _ _) h1)
            rw [invokeState_nodeListeners_once path id s hio hs, mem_setDelete]
            exact ⟨hjmem, hj2⟩
          · rw [invokeState_nodeListeners path id s path (Or.inr hio)]
            exact hjmem
        have hrec := processIds_spec env ev path rest (invokeState path id s) hids2
        have hcomp := hstep.trans hrec
        simpa using hcomp

theorem processIds_nodeListeners_other (env : Env) (ev : IEvent) (path : List String) :
    ∀ (ids : List Nat) (s : State) (p : List String), p ≠ path →
    nodeListeners (processIds env ev path ids s).1.subscribers p =
      nodeListeners s.subscribers p
  | [], s, p, _ => by rw [processIds_nil]
  | id :: rest, s, p, hp => by
    by_cases h1 : id ∈ s.processedListeners
    · rw [processIds_cons_skip env ev path id rest s h1]
      exact processIds_nodeListeners_other env ev path rest s p hp
    · cases h2 : mapGet? s.listeners id with
      | none =>
        rw [processIds_cons_gone env ev path id rest s h1 h2]
        exact processIds_nodeListeners_other env ev path rest s p hp
      | some cb =>
        rw [processIds_cons_invoke env ev path id rest s cb h1 h2]
        show nodeListeners (processIds env ev path rest (invokeState path id s)).1.subscribers p = _
        rw [processIds_nodeListeners_other env ev path rest (invokeState path id s) p hp,
          invokeState_nodeListeners path id s p (Or.inl hp)]

theorem processIds_invokes (env : Env) (ev : IEvent) (path : List String) :
    ∀ (ids : List Nat) (s : State) (id : Nat), id ∈ ids →
    (mapGet? s.listeners id).isSome = true → id ∉ s.processedListeners →
    id ∈ (processIds env ev path ids s).2.1
  | [], _, id, hin, _, _ => absurd hin (List.not_mem_nil id)
  | j :: rest, s, id, hin, hreg, hproc => by
    by_cases hji : j = id
    · subst hji
      rcases Option.isSome_iff_exists.mp hreg with ⟨cb, hcb⟩
      rw [processIds_cons_invoke env ev path j rest s cb hproc hcb]
      exact List.mem_cons_self _ _
    · have hin2 : id ∈ rest := by
        rcases List.mem_cons.mp hin with h | h
        · exact absurd h.symm hji
        · exact h
      by_cases h1 : j ∈ s.processedListeners
      · rw [processIds_cons_skip env ev path j rest s h1]
        exact processIds_invokes env ev path rest s id hin2 hreg hproc
      · cases h2 : mapGet? s.listeners j with
        | none =>
          rw [processIds_cons_gone env ev path j rest s h1 h2]
          exact processIds_invokes env ev path rest s id hin2 hreg hproc
        | some cb =>
          rw [processIds_cons_invoke env ev path j rest s cb h1 h2]
          have hreg2 : (mapGet? (invokeState path j s).listeners id).isSome = true := by
            by_cases hio : j ∈ s.onceListeners
            · rw [invokeState_once path j s hio]
              show (mapGet? (mapDelete s.listeners j) id).isSome = true
              rw [mapGet?_mapDelete_ne _ j id (fun hx => hji hx.symm)]
              exact hreg
            · rw [invokeState_many path j s hio]
              exact hreg
          have hproc2 : id ∉ (invokeState path j s).processedListeners := by
            rw [invokeState_processed path j s h1]
            intro hx
            rcases List.mem_append.mp hx with h | h
            · exact hproc h
            · have hidj : id = j := by simpa using h
              exact hji hidj.symm
          exact List.mem_cons_of_mem _
            (processIds_invokes env ev path rest (invokeState path j s) id hin2 hreg2 hproc2)

/-! ### Walk lemmas -/

theorem append_cons_ne (p : List String) (c : String) (q : List String) :
    p ++ c :: q ≠ p := by
  intro h
  have hlen := congrArg List.length h
  simp at hlen

theorem emitToSubscribers_nil (env : Env) (ev : IEvent) (path : List String)
    (s : State) :
    emitToSubscribers env ev [] path s =
      processIds env ev path (nodeListeners s.subscribers path) s := rfl

theorem emitToSubscribers_cons_parts (env : Env) (ev : IEvent) (current : String)
    (rest path : List String) (s : State) :
    ∃ r1 r2 r3 r4 : State × List Nat × List ListenerResult,
      r1 = processIds env ev path (nodeListeners s.subscribers path) s ∧
      r2 = (if childExists r1.1 path current then
              emitToSubscribers env ev rest (path ++ [current]) r1.1
            else (r1.1, [], [])) ∧
      r3 = (if childExists r2.1 path "*" then
              emitToSubscribers env ev rest (path ++ ["*"]) r2.1
            else (r2.1, [], [])) ∧
      r4 = (if childExists r3.1 path "**" then
              processIds env ev (path ++ ["**"])
                (nodeListeners r3.1.subscribers (path ++ ["**"])) r3.1
            else (r3.1, [], [])) ∧
      emitToSubscribers env ev (current :: rest) path s =
        (r4.1, r1.2.1 ++ r2.2.1 ++ r3.2.1 ++ r4.2.1,
          r1.2.2 ++ r2.2.2 ++ r3.2.2 ++ r4.2.2) :=
  ⟨_, _, _, _, rfl, rfl, rfl, rfl, rfl⟩

theorem emitToSubscribers_spec (env : Env) (ev : IEvent) :
    ∀ (parts path : List String) (s : State),
    StepSpec s (emitToSubscribers env ev parts path s).1
      (emitToSubscribers env ev parts path s).2.1
  | [], path, s => by
    rw [emitToSubscribers_nil]
    exact processIds_spec env ev path _ s (fun j hj _ => hj)
  | current :: rest, path, s => by
    obtain ⟨r1, r2, r3, r4, e1, e2, e3, e4, e⟩ :=
      emitToSubscribers_cons_parts env ev current rest path s
    rw [e]
    have h1 : StepSpec s r1.1 r1.2.1 := by
      rw [e1]
      exact processIds_spec env ev path _ s (fun j hj _ => hj)
    have h2 : StepSpec r1.1 r2.1 r2.2.1 := by
      rw [e2]
      by_cases hc : childExists r1.1 path current
      · rw [if_pos hc]
        exact emitToSubscribers_spec env ev rest (path ++ [current]) r1.1
      · rw [if_neg hc]
        exact StepSpec.base _
    have h3 : StepSpec r2.1 r3.1 r3.2.1 := by
      rw [e3]
      by_cases hc : childExists r2.1 path "*"
      · rw [if_pos hc]
        exact emitToSubscribers_spec env ev rest (path ++ ["*"]) r2.1
      · rw [if_neg hc]
        exact StepSpec.base _
    have h4 : StepSpec r3.1 r4.1 r4.2.1 := by
      rw [e4]
      by_cases hc : childExists r3.1 path "**"
      · rw [if_pos hc]
        exact processIds_spec env ev (path ++ ["**"]) _ r3.1 (fun j hj _ => hj)
      · rw [if_neg hc]
        exact StepSpec.base _
    have hall := ((h1.trans h2).trans h3).trans h4
    simpa [List.append_assoc] using hall

theorem emitToSubscribers_invokes (env : Env) (ev : IEvent) :
    ∀ (parts path : List String) (s : State) (id : Nat),
    id ∈ nodeListeners s.subscribers (path ++ parts) →
    (mapGet? s.listeners id).isSome = true →
    id ∉ s.processedListeners →
    id ∈ (emitToSubscribers env ev parts path s).2.1
  | [], path, s, id, hmem, hreg, hproc => by
    rw [emitToSubscribers_nil]
    rw [List.append_nil] at hmem
    exact processIds_invokes env ev path _ s id hmem hreg hproc
  | current :: rest, path, s, id, hmem, hreg, hproc => by
    obtain ⟨r1, r2, r3, r4, e1, e2, e3, e4, e⟩ :=
      emitToSubscribers_cons_parts env ev current rest path s
    rw [e]
    by_cases hin1 : id ∈ r1.2.1
    · simp [hin1]
    · have hspec1 : StepSpec s r1.1 r1.2.1 := by
        rw [e1]
        exact processIds_spec env ev path _ s (fun j hj _ => hj)
      have hne : path ++ current :: rest ≠ path := append_cons_ne path current rest
      have hmem1 : id ∈ nodeListeners r1.1.subscribers (path ++ current :: rest) := by
        rw [e1, processIds_nodeListeners_other env ev path _ s _ hne]
        exact hmem
      have hreg1 : (mapGet? r1.1.listeners id).isSome = true := by
        rw [hspec1.regSame id hin1]
        exact hreg
      have hproc1 : id ∉ r1.1.processedListeners := by
        rw [hspec1.processed]
        intro hx
        rcases List.mem_append.mp hx with h | h
        · exact hproc h
        · exact hin1 h
      have hsplit : path ++ current :: rest = (path ++ [current]) ++ rest := by simp
      have hchild : childExists r1.1 path current = true := by
        unfold childExists
        have hs1 : (nodeAt? r1.1.subscribers (path ++ current :: rest)).isSome = true :=
          isSome_of_mem_nodeListeners hmem1
        rw [hsplit] at hs1
        exact isSome_nodeAt?_of_append hs1
      have hmem2 : id ∈ nodeListeners r1.1.subscribers ((path ++ [current]) ++ rest) := by
        rw [← hsplit]
        exact hmem1
      have hin2 : id ∈ r2.2.1 := by
        rw [e2, if_pos hchild]
        exact emitToSubscribers_invokes env ev rest (path ++ [current]) r1.1 id
          hmem2 hreg1 hproc1
      simp [hin2]

theorem emitToSubscribers_childless (env : Env) (ev : IEvent) :
    ∀ (parts path : List String) (s : State) (L : List Nat),
    nodeAt? s.subscribers path = some (.node L []) →
    emitToSubscribers env ev parts path s = processIds env ev path L s := by
  intro parts path s L h
  have hL : nodeListeners s.subscribers path = L := by
    rw [nodeListeners_of_some h]
    rfl
  cases parts with
  | nil => rw [emitToSubscribers_nil, hL]
  | cons current rest =>
    obtain ⟨r1, r2, r3, r4, e1, e2, e3, e4, e⟩ :=
      emitToSubscribers_cons_parts env ev current rest path s
    have hspec1 : StepSpec s r1.1 r1.2.1 := by
      rw [e1]
      exact processIds_spec env ev path _ s (fun j hj _ => hj)
    have hnochild : ∀ k : String, (nodeAt? s.subscribers (path ++ [k])).isSome = false := by
      intro k
      rw [nodeAt?_append, h]
      show (nodeAt? (SubscriberNode.node L []) [k]).isSome = false
      rw [nodeAt?_cons_none L [] (show mapGet? ([] : List (String × SubscriberNode)) k
        = none from rfl)]
      rfl
    have hc1 : childExists r1.1 path current = false := by
      unfold childExists
      rw [hspec1.shape]
      exact hnochild current
    have hr2 : r2 = (r1.1, [], []) := by
      rw [e2, if_neg (by rw [hc1]; exact fun hx => Bool.noConfusion hx)]
    have hc2 : childExists r2.1 path "*" = false := by
      rw [hr2]
      unfold childExists
      rw [hspec1.shape]
      exact hnochild "*"
    have hr3 : r3 = (r1.1, [], []) := by
      rw [e3, if_neg (by rw [hc2]; exact fun hx => Bool.noConfusion hx), hr2]
    have hc3 : childExists r3.1 path "**" = false := by
      rw [hr3]
      unfold childExists
      rw [hspec1.shape]
      exact hnochild "**"
    have hr4 : r4 = (r1.1, [], []) := by
      rw [e4, if_neg (by rw [hc3]; exact fun hx => Bool.noConfusion hx), hr3]
    rw [e, hr2, hr3, hr4, e1, hL]
    simp

/-! ### State-level lemmas -/

theorem WF.occ_fresh {s : State} (h : WF s) (k : Nat) (hk : s.listenerCount ≤ k) :
    occCount k s.subscribers = 0 :=
  occ_eq_zero_of_idsBelow s.listenerCount k hk s.subscribers h.trieBound

theorem WF.fresh_not_processed {s : State} (h : WF s) (k : Nat)
    (hk : s.listenerCount ≤ k) : k ∉ s.processedListeners := by
  intro hm
  have := h.processedBound k hm
  omega

theorem partsOf_congr (s1 s : State) (x : String) (h : s1.delimiter = s.delimiter) :
    partsOf s1 x = partsOf s x := by
  rw [partsOf, partsOf, h]

theorem addListener_no_retained (s : State) (T : String) (cb : Callback)
    (isOnce : Bool) (hret : mapGet? s.retainedEvents T = none) :
    addListener s T cb isOnce =
      (registeredState s T cb isOnce, [],
        ⟨s.listenerCount, partsOf s T, isOnce, false⟩) := by
  simp [addListener, registeredState, hret]

theorem addListener_retained_many (s : State) (T : String) (cb : Callback)
    (ev : IEvent) (hret : mapGet? s.retainedEvents T = some ev) :
    addListener s T cb false =
      (registeredState s T cb false, [(cb, ev)],
        ⟨s.listenerCount, partsOf s T, false, false⟩) := by
  simp [addListener, registeredState, hret]

theorem addListener_retained_once (s : State) (T : String) (cb : Callback)
    (ev : IEvent) (hret : mapGet? s.retainedEvents T = some ev) :
    addListener s T cb true =
      ({ registeredState s T cb true with
          listeners := mapDelete (registeredState s T cb true).listeners s.listenerCount
          onceListeners := setDelete (registeredState s T cb true).onceListeners
            s.listenerCount
          subscribers := eraseAt s.listenerCount
            (registeredState s T cb true).subscribers (partsOf s T) },
        [(cb, ev)], ⟨s.listenerCount, partsOf s T, true, true⟩) := by
  simp [addListener, registeredState, hret]

theorem registeredState_nodeListeners (s : State) (T : String) (cb : Callback)
    (isOnce : Bool) :
    nodeListeners (registeredState s T cb isOnce).subscribers (partsOf s T) =
      setAdd (nodeListeners s.subscribers (partsOf s T)) s.listenerCount := by
  show nodeListeners (addAt s.listenerCount
    (navigateCreate s.subscribers (partsOf s T)) (partsOf s T)) (partsOf s T) = _
  rw [addAt, nodeListeners_updateL,
    if_pos ⟨rfl, navigateCreate_isSome s.subscribers (partsOf s T)⟩,
    nodeListeners_navigateCreate]

theorem registeredState_reg (s : State) (T : String) (cb : Callback) (isOnce : Bool) :
    mapGet? (registeredState s T cb isOnce).listeners s.listenerCount = some cb :=
  mapGet?_mapSet_self s.listeners s.listenerCount cb

theorem registeredState_occ (s : State) (T : String) (cb : Callback) (isOnce : Bool)
    (h : occCount s.listenerCount s.subscribers = 0) :
    occCount s.listenerCount (registeredState s T cb isOnce).subscribers = 1 := by
  show occCount s.listenerCount (addAt s.listenerCount
    (navigateCreate s.subscribers (partsOf s T)) (partsOf s T)) = 1
  rw [occ_addAt_fresh s.listenerCount _ (partsOf s T)
    (navigateCreate_isSome s.subscribers (partsOf s T))
    (by
      rw [nodeListeners_navigateCreate]
      exact not_mem_nodeListeners_of_occ_zero (partsOf s T) h),
    occ_navigateCreate, h]

theorem emit_false (env : Env) (s : State) (ev : IEvent) :
    emit env s ev false =
      ((emitToSubscribers env ev (partsOf s ev.type) [] s).1,
        (emitToSubscribers env ev (partsOf s ev.type) [] s).2.1) := rfl

theorem emit_true (env : Env) (s : State) (ev : IEvent) :
    emit env s ev true =
      emit env { s with retainedEvents := mapSet s.retainedEvents ev.type ev }
        ev false := rfl

theorem emit_spec (env : Env) (s : State) (ev : IEvent) :
    StepSpec s (emit env s ev false).1 (emit env s ev false).2 := by
  rw [emit_false]
  exact emitToSubscribers_spec env ev (partsOf s ev.type) [] s

theorem emit_not_invoked (env : Env) (s : State) (ev : IEvent) (retain : Bool)
    (id : Nat) (h : mapGet? s.listeners id = none) :
    id ∉ (emit env s ev retain).2 := by
  cases retain with
  | false =>
    intro hx
    have := ((emit_spec env s ev).invSound id hx).1
    rw [h] at this
    exact Bool.noConfusion this
  | true =>
    rw [emit_true]
    intro hx
    have := ((emit_spec env
      { s with retainedEvents := mapSet s.retainedEvents ev.type ev } ev).invSound id hx).1
    rw [show ({ s with retainedEvents := mapSet s.retainedEvents ev.type ev } : State).listeners
      = s.listeners from rfl, h] at this
    exact Bool.noConfusion this

/-! ### Claim theorems -/

/-- Claim C5: for a fire-once listener registered via `once` on topic `T` of a
well-formed instance with no retained event stored under the literal `T`, the
first `emit` of `T` invokes it, and immediately after that call its id is
gone from the listener registry, the once set, and every trie node — the
listener environment is arbitrary, so this holds in particular when the
callback raised a failure; a second `emit` of `T` does not invoke it. -/
theorem C5_once_fires_then_removed (env : Env) (s : State) (T : String)
    (cb : Callback) (pay pay2 : String) (s1 : State)
    (rep : List (Callback × IEvent)) (sub : Subscriber) (s2 : State)
    (inv : List Nat) (hwf : WF s) (hret : mapGet? s.retainedEvents T = none)
    (hr : once s T cb = (s1, rep, sub))
    (he : emit env s1 ⟨T, pay⟩ false = (s2, inv)) :
    sub.id ∈ inv ∧
    mapGet? s2.listeners sub.id = none ∧
    sub.id ∉ s2.onceListeners ∧
    occCount sub.id s2.subscribers = 0 ∧
    sub.id ∉ (emit env s2 ⟨T, pay2⟩ false).2 := by
  rw [once, addListener_no_retained s T cb true hret] at hr
  have hs1 : s1 = registeredState s T cb true := (congrArg Prod.fst hr).symm
  have hsub : sub = ⟨s.listenerCount, partsOf s T, true, false⟩ :=
    (congrArg (fun x => x.2.2) hr).symm
  subst hs1
  have hid : sub.id = s.listenerCount := by rw [hsub]
  rw [hid]
  have hocc0 : occCount s.listenerCount s.subscribers = 0 :=
    hwf.occ_fresh s.listenerCount (Nat.le_refl _)
  have hmem : s.listenerCount ∈
      nodeListeners (registeredState s T cb true).subscribers (partsOf s T) := by
    rw [registeredState_nodeListeners]
    exact setAdd_self _ _
  have hreg : mapGet? (registeredState s T cb true).listeners s.listenerCount =
      some cb := registeredState_reg s T cb true
  have honce : s.listenerCount ∈ (registeredState s T cb true).onceListeners := by
    show s.listenerCount ∈ (if true then setAdd s.onceListeners s.listenerCount
      else s.onceListeners)
    rw [if_pos rfl]
    exact setAdd_self _ _
  have hproc : s.listenerCount ∉ (registeredState s T cb true).processedListeners :=
    hwf.fresh_not_processed s.listenerCount (Nat.le_refl _)
  have hocc1 : occCount s.listenerCount (registeredState s T cb true).subscribers = 1 :=
    registeredState_occ s T cb true hocc0
  have hparts : partsOf (registeredState s T cb true)
      (IEvent.mk T pay).type = partsOf s T :=
    partsOf_congr _ s T rfl
  rw [emit_false] at he
  have hs2 : s2 = (emitToSubscribers env ⟨T, pay⟩
      (partsOf (registeredState s T cb true) (IEvent.mk T pay).type) []
      (registeredState s T cb true)).1 := (congrArg Prod.fst he).symm
  have hinv : inv = (emitToSubscribers env ⟨T, pay⟩
      (partsOf (registeredState s T cb true) (IEvent.mk T pay).type) []
      (registeredState s T cb true)).2.1 := (congrArg (fun x => x.2) he).symm
  have hspec := emitToSubscribers_spec env ⟨T, pay⟩
    (partsOf (registeredState s T cb true) (IEvent.mk T pay).type) []
    (registeredState s T cb true)
  rw [← hs2, ← hinv] at hspec
  have hinvoked : s.listenerCount ∈ inv := by
    rw [hinv]
    refine emitToSubscribers_invokes env ⟨T, pay⟩ _ [] _ s.listenerCount ?_
      (by rw [hreg]; rfl) hproc
    rw [List.nil_append, hparts]
    exact hmem
  have hremoved := hspec.onceRemoved s.listenerCount hinvoked honce
  have hocc2 := hspec.occOnce s.listenerCount hinvoked honce
  rw [hocc1] at hocc2
  refine ⟨hinvoked, hremoved.1, hremoved.2, by omega, ?_⟩
  exact emit_not_invoked env s2 ⟨T, pay2⟩ false s.listenerCount hremoved.1

theorem C5_once_fires_then_removed_witness :
    (once (mkFlexEvent none) "a.b" 9).2.2.id ∈
      (emit envW (once (mkFlexEvent none) "a.b" 9).1 ⟨"a.b", "p"⟩ false).2 ∧
    mapGet? (emit envW (once (mkFlexEvent none) "a.b" 9).1
      ⟨"a.b", "p"⟩ false).1.listeners (once (mkFlexEvent none) "a.b" 9).2.2.id = none ∧
    (once (mkFlexEvent none) "a.b" 9).2.2.id ∉
      (emit envW (once (mkFlexEvent none) "a.b" 9).1 ⟨"a.b", "p"⟩ false).1.onceListeners ∧
    occCount (once (mkFlexEvent none) "a.b" 9).2.2.id
      (emit envW (once (mkFlexEvent none) "a.b" 9).1 ⟨"a.b", "p"⟩ false).1.subscribers = 0 ∧
    (once (mkFlexEvent none) "a.b" 9).2.2.id ∉
      (emit envW (emit envW (once (mkFlexEvent none) "a.b" 9).1 ⟨"a.b", "p"⟩ false).1
        ⟨"a.b", "q"⟩ false).2 :=
  C5_once_fires_then_removed envW (mkFlexEvent none) "a.b" 9 "p" "q"
    (once (mkFlexEvent none) "a.b" 9).1 (once (mkFlexEvent none) "a.b" 9).2.1
    (once (mkFlexEvent none) "a.b" 9).2.2
    (emit envW (once (mkFlexEvent none) "a.b" 9).1 ⟨"a.b", "p"⟩ false).1
    (emit envW (once (mkFlexEvent none) "a.b" 9).1 ⟨"a.b", "p"⟩ false).2
    ⟨by decide, by decide⟩ (by decide) rfl rfl

theorem on_state (s : State) (T : String) (cb : Callback) :
    («on» s T cb).1 = registeredState s T cb false ∧
    («on» s T cb).2.2 = ⟨s.listenerCount, partsOf s T, false, false⟩ := by
  cases hret : mapGet? s.retainedEvents T with
  | none =>
    rw [«on», addListener_no_retained s T cb false hret]
    exact ⟨rfl, rfl⟩
  | some ev =>
    rw [«on», addListener_retained_many s T cb ev hret]
    exact ⟨rfl, rfl⟩

/-- Claim C3, counterexample: an instance with two persistent listeners on
topic `a`, the first of which (callback 9 in `envW`) throws.  The synchronous
`emit` does not propagate the exception and does not abort dispatch: it
returns normally having invoked both listeners, ids 0 and 1 — because
`_processListener` is an `async` method, the throw only rejects a promise
that the synchronous path discards. -/
theorem C3_sync_throw_counterexample :
    (emit envW ((«on» ((«on» (mkFlexEvent none) "a" 9).1) "a" 2).1)
      ⟨"a", "p"⟩ false).2 = [0, 1] := by decide

/-- Claim C3 amended: an exception raised by a listener during synchronous
`emit` is captured by the `async` `_processListener` wrapper (becoming a
discarded rejected promise), so it does not propagate to the caller of
`emit`, and the remaining matched listeners are still invoked: with two
persistent listeners registered on `T` in order on a well-formed instance,
both are invoked by `emit` of `T` even though the first one's callback
settles to a failure. -/
theorem C3_sync_throw_swallowed (env : Env) (s : State) (T : String)
    (cbA cbB : Callback) (pay e : String) (s1 s2 s3 : State)
    (repA repB : List (Callback × IEvent)) (subA subB : Subscriber)
    (inv : List Nat) (hwf : WF s)
    (_henv : env cbA ⟨T, pay⟩ = Except.error e)
    (hrA : «on» s T cbA = (s1, repA, subA))
    (hrB : «on» s1 T cbB = (s2, repB, subB))
    (he : emit env s2 ⟨T, pay⟩ false = (s3, inv)) :
    subA.id ∈ inv ∧ subB.id ∈ inv := by
  have hA := on_state s T cbA
  have hs1 : s1 = registeredState s T cbA false := by
    rw [← hA.1, hrA]
  have hsubA : subA = ⟨s.listenerCount, partsOf s T, false, false⟩ := by
    rw [← hA.2, hrA]
  have hB := on_state s1 T cbB
  have hs2 : s2 = registeredState s1 T cbB false := by
    rw [← hB.1, hrB]
  have hsubB : subB = ⟨s1.listenerCount, partsOf s1 T, false, false⟩ := by
    rw [← hB.2, hrB]
  have hcount1 : s1.listenerCount = s.listenerCount + 1 := by rw [hs1]; rfl
  have hdelim1 : s1.delimiter = s.delimiter := by rw [hs1]; rfl
  have hdelim2 : s2.delimiter = s.delimiter := by
    rw [hs2]
    show s1.delimiter = s.delimiter
    exact hdelim1
  have hparts1 : partsOf s1 T = partsOf s T := partsOf_congr s1 s T hdelim1
  have hparts2 : partsOf s2 T = partsOf s T := partsOf_congr s2 s T hdelim2
  have hne : s.listenerCount ≠ s1.listenerCount := by omega
  have hnodeAll : nodeListeners s2.subscribers (partsOf s T) =
      setAdd (setAdd (nodeListeners s.subscribers (partsOf s T)) s.listenerCount)
        s1.listenerCount := by
    rw [hs2]
    have h1 := registeredState_nodeListeners s1 T cbB false
    rw [hparts1] at h1
    rw [h1, hs1]
    have h2 := registeredState_nodeListeners s T cbA false
    rw [h2]
  have hregA : mapGet? s2.listeners s.listenerCount = some cbA := by
    rw [hs2]
    show mapGet? (mapSet s1.listeners s1.listenerCount cbB) s.listenerCount = some cbA
    rw [mapGet?_mapSet_ne s1.listeners s1.listenerCount s.listenerCount cbB hne, hs1]
    exact registeredState_reg s T cbA false
  have hregB : mapGet? s2.listeners s1.listenerCount = some cbB := by
    rw [hs2]
    exact registeredState_reg s1 T cbB false
  have hproc2 : s2.processedListeners = s.processedListeners := by
    rw [hs2, hs1]
    rfl
  have hprocA : s.listenerCount ∉ s2.processedListeners := by
    rw [hproc2]
    exact hwf.fresh_not_processed s.listenerCount (Nat.le_refl _)
  have hprocB : s1.listenerCount ∉ s2.processedListeners := by
    rw [hproc2]
    exact hwf.fresh_not_processed s1.listenerCount (by omega)
  rw [emit_false] at he
  have hinv : inv = (emitToSubscribers env ⟨T, pay⟩
      (partsOf s2 (IEvent.mk T pay).type) [] s2).2.1 :=
    (congrArg (fun x => x.2) he).symm
  have hmain : ∀ j, j ∈ nodeListeners s2.subscribers (partsOf s T) →
      (mapGet? s2.listeners j).isSome = true → j ∉ s2.processedListeners →
      j ∈ inv := by
    intro j hjm hjr hjp
    rw [hinv]
    refine emitToSubscribers_invokes env ⟨T, pay⟩ _ [] s2 j ?_ hjr hjp
    rw [List.nil_append]
    show j ∈ nodeListeners s2.subscribers (partsOf s2 T)
    rw [hparts2]
    exact hjm
  constructor
  · rw [hsubA]
    refine hmain s.listenerCount ?_ (by rw [hregA]; rfl) hprocA
    rw [hnodeAll, mem_setAdd, mem_setAdd]
    exact Or.inr (Or.inl rfl)
  · rw [hsubB]
    show s1.listenerCount ∈ inv
    refine hmain s1.listenerCount ?_ (by rw [hregB]; rfl) hprocB
    rw [hnodeAll]
    exact setAdd_self _ _

theorem C3_sync_throw_swallowed_witness :
    («on» (mkFlexEvent none) "a" 9).2.2.id ∈
      (emit envW ((«on» ((«on» (mkFlexEvent none) "a" 9).1) "a" 2).1)
        ⟨"a", "p"⟩ false).2 ∧
    («on» ((«on» (mkFlexEvent none) "a" 9).1) "a" 2).2.2.id ∈
      (emit envW ((«on» ((«on» (mkFlexEvent none) "a" 9).1) "a" 2).1)
        ⟨"a", "p"⟩ false).2 :=
  C3_sync_throw_swallowed envW (mkFlexEvent none) "a" 9 2 "p" "boom"
    ((«on» (mkFlexEvent none) "a" 9).1)
    ((«on» ((«on» (mkFlexEvent none) "a" 9).1) "a" 2).1)
    (emit envW ((«on» ((«on» (mkFlexEvent none) "a" 9).1) "a" 2).1)
      ⟨"a", "p"⟩ false).1
    ((«on» (mkFlexEvent none) "a" 9).2.1)
    ((«on» ((«on» (mkFlexEvent none) "a" 9).1) "a" 2).2.1)
    ((«on» (mkFlexEvent none) "a" 9).2.2)
    ((«on» ((«on» (mkFlexEvent none) "a" 9).1) "a" 2).2.2)
    (emit envW ((«on» ((«on» (mkFlexEvent none) "a" 9).1) "a" 2).1)
      ⟨"a", "p"⟩ false).2
    ⟨by decide, by decide⟩ rfl rfl rfl rfl

/-- Claim C6: after `emit({type: x, payload: d}, true)` on any instance, a
subsequent `on(x, L)` invokes `L` synchronously with exactly that retained
event before returning (the replay list of the registration is exactly
`[(L, event)]`); the retained lookup is by literal equality of the raw
pattern string, so registering under any other pattern `p` — for instance a
wildcard pattern that would match `x` — with no retained entry of its own
replays nothing. -/
theorem C6_retained_replay (env : Env) (s : State) (x d : String)
    (cb cb2 : Callback) (p : String) (s1 : State) (inv : List Nat)
    (he : emit env s ⟨x, d⟩ true = (s1, inv))
    (hp1 : p ≠ x) (hp2 : mapGet? s.retainedEvents p = none) :
    («on» s1 x cb).2.1 = [(cb, ⟨x, d⟩)] ∧
    («on» s1 p cb2).2.1 = [] := by
  have hret1 : s1.retainedEvents = mapSet s.retainedEvents x ⟨x, d⟩ := by
    have h1 : (emit env s ⟨x, d⟩ true).1 = s1 := by rw [he]
    rw [← h1, emit_true, emit_false]
    exact (emitToSubscribers_spec env _ _ [] _).retainedSame
  constructor
  · have hx : mapGet? s1.retainedEvents x = some ⟨x, d⟩ := by
      rw [hret1]
      exact mapGet?_mapSet_self s.retainedEvents x ⟨x, d⟩
    rw [«on», addListener_retained_many s1 x cb ⟨x, d⟩ hx]
  · have hp : mapGet? s1.retainedEvents p = none := by
      rw [hret1, mapGet?_mapSet_ne s.retainedEvents x p ⟨x, d⟩ hp1]
      exact hp2
    rw [«on», addListener_no_retained s1 p cb2 false hp]

theorem C6_retained_replay_witness :
    («on» (emit envW (mkFlexEvent none) ⟨"x", "data"⟩ true).1 "x" 5).2.1 =
      [(5, ⟨"x", "data"⟩)] ∧
    («on» (emit envW (mkFlexEvent none) ⟨"x", "data"⟩ true).1 "*" 6).2.1 = [] :=
  C6_retained_replay envW (mkFlexEvent none) "x" "data" 5 6 "*"
    (emit envW (mkFlexEvent none) ⟨"x", "data"⟩ true).1
    (emit envW (mkFlexEvent none) ⟨"x", "data"⟩ true).2
    rfl (by decide) rfl

theorem subscriberOff_noop (s : State) (sub : Subscriber) (h : sub.noop = true) :
    subscriberOff s sub = s := by
  simp [subscriberOff, h]

theorem subscriberOff_active (s : State) (sub : Subscriber) (h : sub.noop = false) :
    subscriberOff s sub =
      { s with
          listeners := mapDelete s.listeners sub.id
          onceListeners :=
            if sub.isOnce then setDelete s.onceListeners sub.id else s.onceListeners
          subscribers := eraseAt sub.id s.subscribers sub.path } := by
  simp [subscriberOff, h]

theorem waitFor_no_retained (s : State) (T : String) (timeout : Int)
    (waitCb : Callback) (hret : mapGet? s.retainedEvents T = none) :
    waitFor s T timeout waitCb =
      { state := registeredState s T waitCb true
        sub := ⟨s.listenerCount, partsOf s T, true, false⟩
        eventType := T
        timeout := timeout
        settled := none
        timerActive := timeout > 0 } := by
  simp [waitFor, once, addListener_no_retained s T waitCb true hret]

theorem waitFor_retained (s : State) (T : String) (timeout : Int)
    (waitCb : Callback) (ev : IEvent) (hret : mapGet? s.retainedEvents T = some ev) :
    waitFor s T timeout waitCb =
      { state := (once s T waitCb).1
        sub := ⟨s.listenerCount, partsOf s T, true, true⟩
        eventType := T
        timeout := timeout
        settled := some (Except.ok ev)
        timerActive := timeout > 0 } := by
  simp [waitFor, once, addListener_retained_once s T waitCb ev hret]

theorem timeoutFires_active (w : WaitState) (h : w.timerActive = true)
    (hs : w.settled = none) :
    timeoutFires w =
      { w with
          state := subscriberOff w.state w.sub
          timerActive := false
          settled := some (Except.error (timeoutMessage w.eventType w.timeout)) } := by
  simp [timeoutFires, h, hs]

theorem timeoutFires_settled (w : WaitState) (r : Except String IEvent)
    (h : w.timerActive = true) (hs : w.settled = some r) :
    timeoutFires w =
      { w with
          state := subscriberOff w.state w.sub
          timerActive := false } := by
  simp [timeoutFires, h, hs]

theorem timeoutFires_inactive (w : WaitState) (h : w.timerActive = false) :
    timeoutFires w = w := by
  simp [timeoutFires, h]

theorem waitEmit_hit (env : Env) (w : WaitState) (ev : IEvent) (retain : Bool)
    (h : w.sub.id ∈ (emit env w.state ev retain).2) (hs : w.settled = none) :
    waitEmit env w ev retain =
      { w with
          state := (emit env w.state ev retain).1
          timerActive := false
          settled := some (Except.ok ev) } := by
  simp [waitEmit, h, hs]

theorem waitEmit_miss (env : Env) (w : WaitState) (ev : IEvent) (retain : Bool)
    (h : w.sub.id ∉ (emit env w.state ev retain).2) :
    waitEmit env w ev retain = { w with state := (emit env w.state ev retain).1 } := by
  simp [waitEmit, h]

theorem emit_invokes_fresh (env : Env) (s : State) (T : String) (cb : Callback)
    (isOnce : Bool) (pay : String) (hwf : WF s) :
    s.listenerCount ∈ (emit env (registeredState s T cb isOnce) ⟨T, pay⟩ false).2 := by
  rw [emit_false]
  refine emitToSubscribers_invokes env ⟨T, pay⟩ _ [] _ s.listenerCount ?_ ?_ ?_
  · rw [List.nil_append]
    show s.listenerCount ∈ nodeListeners (registeredState s T cb isOnce).subscribers
      (partsOf (registeredState s T cb isOnce) T)
    rw [partsOf_congr (registeredState s T cb isOnce) s T rfl,
      registeredState_nodeListeners]
    exact setAdd_self _ _
  · rw [registeredState_reg]
    rfl
  · exact hwf.fresh_not_processed s.listenerCount (Nat.le_refl _)

/-- Claim C7: `waitFor(T, timeout)` on a well-formed instance with no retained
event under `T` starts out pending, with a timer pending exactly when
`timeout > 0`.  If the timer fires first, the promise rejects with the
`TimeoutError` message naming the pattern and the duration, the fire-once
subscription is cancelled so a subsequent matching `emit` does not invoke the
wait's listener and leaves the settled rejection unchanged.  If a matching
`emit` fires first, the promise resolves with that event and the timer is
cancelled.  With `timeout ≤ 0` no timer is ever pending — the timer callback
can never fire and the wait settles only when a matching event arrives. -/
theorem C7_waitFor (env : Env) (s : State) (T : String) (timeout : Int)
    (waitCb : Callback) (pay pay2 : String)
    (hwf : WF s) (hret : mapGet? s.retainedEvents T = none) :
    (waitFor s T timeout waitCb).settled = none ∧
    ((0 : Int) < timeout →
      (waitFor s T timeout waitCb).timerActive = true ∧
      (timeoutFires (waitFor s T timeout waitCb)).settled =
        some (Except.error (timeoutMessage T timeout)) ∧
      (waitFor s T timeout waitCb).sub.id ∉
        (emit env (timeoutFires (waitFor s T timeout waitCb)).state ⟨T, pay⟩ false).2 ∧
      (waitEmit env (timeoutFires (waitFor s T timeout waitCb)) ⟨T, pay⟩ false).settled =
        some (Except.error (timeoutMessage T timeout)) ∧
      (waitEmit env (waitFor s T timeout waitCb) ⟨T, pay2⟩ false).settled =
        some (Except.ok ⟨T, pay2⟩) ∧
      (waitEmit env (waitFor s T timeout waitCb) ⟨T, pay2⟩ false).timerActive = false) ∧
    (timeout ≤ 0 →
      (waitFor s T timeout waitCb).timerActive = false ∧
      timeoutFires (waitFor s T timeout waitCb) = waitFor s T timeout waitCb ∧
      (waitEmit env (waitFor s T timeout waitCb) ⟨T, pay2⟩ false).settled =
        some (Except.ok ⟨T, pay2⟩)) := by
  have hw := waitFor_no_retained s T timeout waitCb hret
  have hsettled : (waitFor s T timeout waitCb).settled = none := by rw [hw]
  have hstate : (waitFor s T timeout waitCb).state = registeredState s T waitCb true := by
    rw [hw]
  have hsub : (waitFor s T timeout waitCb).sub =
      ⟨s.listenerCount, partsOf s T, true, false⟩ := by rw [hw]
  have hET : (waitFor s T timeout waitCb).eventType = T := by rw [hw]
  have hTO : (waitFor s T timeout waitCb).timeout = timeout := by rw [hw]
  have hta : (waitFor s T timeout waitCb).timerActive = decide (0 < timeout) := by rw [hw]
  have hhit : (waitFor s T timeout waitCb).sub.id ∈
      (emit env (waitFor s T timeout waitCb).state ⟨T, pay2⟩ false).2 := by
    rw [hsub, hstate]
    exact emit_invokes_fresh env s T waitCb true pay2 hwf
  refine ⟨hsettled, fun hpos => ?_, fun hneg => ?_⟩
  · have hact : (waitFor s T timeout waitCb).timerActive = true := by
      rw [hta]
      exact decide_eq_true_eq.mpr hpos
    have htf := timeoutFires_active (waitFor s T timeout waitCb) hact hsettled
    have htfsettled : (timeoutFires (waitFor s T timeout waitCb)).settled =
        some (Except.error (timeoutMessage T timeout)) := by
      rw [htf]
      show some (Except.error (timeoutMessage (waitFor s T timeout waitCb).eventType
        (waitFor s T timeout waitCb).timeout)) = _
      rw [hET, hTO]
    have htfstate : (timeoutFires (waitFor s T timeout waitCb)).state =
        subscriberOff (waitFor s T timeout waitCb).state
          (waitFor s T timeout waitCb).sub := by rw [htf]
    have htfsub : (timeoutFires (waitFor s T timeout waitCb)).sub =
        (waitFor s T timeout waitCb).sub := by rw [htf]
    have hgone : mapGet? (subscriberOff (waitFor s T timeout waitCb).state
        (waitFor s T timeout waitCb).sub).listeners
        (waitFor s T timeout waitCb).sub.id = none := by
      rw [subscriberOff_active _ _ (by rw [hsub])]
      exact mapGet?_mapDelete_self _ _
    have hnotinv : ∀ ev2 : IEvent, (waitFor s T timeout waitCb).sub.id ∉
        (emit env (timeoutFires (waitFor s T timeout waitCb)).state ev2 false).2 := by
      intro ev2
      rw [htfstate]
      exact emit_not_invoked env _ ev2 false _ hgone
    refine ⟨hact, htfsettled, hnotinv ⟨T, pay⟩, ?_, ?_, ?_⟩
    · rw [waitEmit_miss env _ ⟨T, pay⟩ false (by rw [htfsub]; exact hnotinv ⟨T, pay⟩)]
      exact htfsettled
    · rw [waitEmit_hit env _ ⟨T, pay2⟩ false hhit hsettled]
    · rw [waitEmit_hit env _ ⟨T, pay2⟩ false hhit hsettled]
  · have hact : (waitFor s T timeout waitCb).timerActive = false := by
      rw [hta]
      simp
      omega
    refine ⟨hact, timeoutFires_inactive _ hact, ?_⟩
    rw [waitEmit_hit env _ ⟨T, pay2⟩ false hhit hsettled]

theorem C7_waitFor_witness :
    (waitFor (mkFlexEvent none) "ev" 50 3).settled = none ∧
    (timeoutFires (waitFor (mkFlexEvent none) "ev" 50 3)).settled =
      some (Except.error "Waiting for event \"ev\" timed out after 50ms") ∧
    (waitFor (mkFlexEvent none) "ev" 50 3).sub.id ∉
      (emit envW (timeoutFires (waitFor (mkFlexEvent none) "ev" 50 3)).state
        ⟨"ev", "p"⟩ false).2 := by
  have h := C7_waitFor envW (mkFlexEvent none) "ev" 50 3 "p" "q"
    ⟨by decide, by decide⟩ rfl
  have h2 := h.2.1 (by decide)
  exact ⟨h.1, by rw [h2.2.1]; rfl, h2.2.2.1⟩

/-- Claim C10: if a retained event is stored under the literal `eventType`
when `waitFor(eventType, timeout)` is called, the fire-once listener that
`waitFor` registers is invoked synchronously inside `once` by retained-event
replay (`once` returns exactly that one replay invocation), so the promise is
already resolved with the retained event when `waitFor` returns — before the
timer is even created; the timer later firing changes neither the settled
value (the rejection hits an already-settled promise) nor the state (the
subscription handle after a consumed once replay is a no-op). -/
theorem C10_waitFor_retained (s : State) (T : String) (timeout : Int)
    (waitCb : Callback) (ev : IEvent)
    (hret : mapGet? s.retainedEvents T = some ev) :
    (once s T waitCb).2.1 = [(waitCb, ev)] ∧
    (waitFor s T timeout waitCb).settled = some (Except.ok ev) ∧
    (timeoutFires (waitFor s T timeout waitCb)).settled = some (Except.ok ev) ∧
    (timeoutFires (waitFor s T timeout waitCb)).state =
      (waitFor s T timeout waitCb).state := by
  have hrep : (once s T waitCb).2.1 = [(waitCb, ev)] := by
    rw [once, addListener_retained_once s T waitCb ev hret]
  have hw := waitFor_retained s T timeout waitCb ev hret
  have hsettled : (waitFor s T timeout waitCb).settled = some (Except.ok ev) := by
    rw [hw]
  have hnoop : (waitFor s T timeout waitCb).sub.noop = true := by rw [hw]
  refine ⟨hrep, hsettled, ?_, ?_⟩
  · by_cases hact : (waitFor s T timeout waitCb).timerActive = true
    · rw [timeoutFires_settled _ (Except.ok ev) hact hsettled]
      exact hsettled
    · rw [timeoutFires_inactive _ (Bool.not_eq_true _ |>.mp hact)]
      exact hsettled
  · by_cases hact : (waitFor s T timeout waitCb).timerActive = true
    · rw [timeoutFires_settled _ (Except.ok ev) hact hsettled]
      exact subscriberOff_noop _ _ hnoop
    · rw [timeoutFires_inactive _ (Bool.not_eq_true _ |>.mp hact)]

theorem C10_waitFor_retained_witness :
    (once (emit envW (mkFlexEvent none) ⟨"ev", "r"⟩ true).1 "ev" 3).2.1 =
      [(3, ⟨"ev", "r"⟩)] ∧
    (waitFor (emit envW (mkFlexEvent none) ⟨"ev", "r"⟩ true).1 "ev" 50 3).settled =
      some (Except.ok ⟨"ev", "r"⟩) ∧
    (timeoutFires (waitFor (emit envW (mkFlexEvent none) ⟨"ev", "r"⟩ true).1
      "ev" 50 3)).settled = some (Except.ok ⟨"ev", "r"⟩) ∧
    (timeoutFires (waitFor (emit envW (mkFlexEvent none) ⟨"ev", "r"⟩ true).1
      "ev" 50 3)).state =
      (waitFor (emit envW (mkFlexEvent none) ⟨"ev", "r"⟩ true).1 "ev" 50 3).state :=
  C10_waitFor_retained (emit envW (mkFlexEvent none) ⟨"ev", "r"⟩ true).1
    "ev" 50 3 ⟨"ev", "r"⟩ (by decide)

theorem emitToSubscribers_invokes_dstar (env : Env) (ev : IEvent) (current : String)
    (rest path : List String) (s : State) (id : Nat)
    (hmem : id ∈ nodeListeners s.subscribers (path ++ ["**"]))
    (hreg : (mapGet? s.listeners id).isSome = true)
    (hproc : id ∉ s.processedListeners) :
    id ∈ (emitToSubscribers env ev (current :: rest) path s).2.1 := by
  obtain ⟨r1, r2, r3, r4, e1, e2, e3, e4, e⟩ :=
    emitToSubscribers_cons_parts env ev current rest path s
  rw [e]
  have h1 : StepSpec s r1.1 r1.2.1 := by
    rw [e1]
    exact processIds_spec env ev path _ s (fun j hj _ => hj)
  have h2 : StepSpec r1.1 r2.1 r2.2.1 := by
    rw [e2]
    by_cases hc : childExists r1.1 path current
    · rw [if_pos hc]
      exact emitToSubscribers_spec env ev rest (path ++ [current]) r1.1
    · rw [if_neg hc]
      exact StepSpec.base _
  have h3 : StepSpec r2.1 r3.1 r3.2.1 := by
    rw [e3]
    by_cases hc : childExists r2.1 path "*"
    · rw [if_pos hc]
      exact emitToSubscribers_spec env ev rest (path ++ ["*"]) r2.1
    · rw [if_neg hc]
      exact StepSpec.base _
  by_cases hin1 : id ∈ r1.2.1
  · simp [hin1]
  by_cases hin2 : id ∈ r2.2.1
  · simp [hin2]
  by_cases hin3 : id ∈ r3.2.1
  · simp [hin3]
  have h123 := (h1.trans h2).trans h3
  have hnin : id ∉ (r1.2.1 ++ r2.2.1) ++ r3.2.1 := by
    simp [hin1, hin2, hin3]
  have hmem3 : id ∈ nodeListeners r3.1.subscribers (path ++ ["**"]) :=
    (h123.memPreserved id _ hnin).mpr hmem
  have hreg3 : (mapGet? r3.1.listeners id).isSome = true := by
    rw [h123.regSame id hnin]
    exact hreg
  have hproc3 : id ∉ r3.1.processedListeners := by
    rw [h123.processed]
    intro hx
    rcases List.mem_append.mp hx with hx | hx
    · exact hproc hx
    · exact hnin hx
  have hchild : childExists r3.1 path "**" = true := by
    unfold childExists
    exact isSome_of_mem_nodeListeners hmem3
  have hin4 : id ∈ r4.2.1 := by
    rw [e4, if_pos hchild]
    exact processIds_invokes env ev (path ++ ["**"]) _ r3.1 id hmem3 hreg3 hproc3
  simp [hin4]

theorem mapGet?_singleton_isSome {β : Type} (k : Nat) (v : β) (j : Nat)
    (h : (mapGet? [(k, v)] j).isSome = true) : j = k := by
  by_cases hj : j = k
  · exact hj
  · have hnone : mapGet? [(k, v)] j = none := by
      show (if k = j then some v else mapGet? [] j) = none
      rw [if_neg (fun hh => hj hh.symm)]
      rfl
    rw [hnone] at h
    exact Bool.noConfusion h

theorem nodup_eq_singleton {l : List Nat} {a : Nat} (hn : l.Nodup)
    (hsub : ∀ x ∈ l, x = a) (hm : a ∈ l) : l = [a] := by
  cases l with
  | nil => exact absurd hm (List.not_mem_nil a)
  | cons x rest =>
    have hx : x = a := hsub x (List.mem_cons_self x rest)
    subst hx
    cases rest with
    | nil => rfl
    | cons y r2 =>
      have hy : y = x := hsub y (by simp)
      rw [List.nodup_cons] at hn
      exact absurd (by rw [← hy]; simp : x ∈ y :: r2) hn.1

theorem emitAsync_ok_of_walk (env : Env) (s : State) (ev : IEvent) (s2 : State)
    (h : emitToSubscribers env ev (partsOf s ev.type) [] s = (s2, [], [])) :
    emitAsync env s ev false = (s2, Except.ok []) := by
  simp [emitAsync, h, firstError]

/-- Claim C1 (code defect): the dedupe set `_processedListeners` is an
instance field created in the constructor and never cleared by `emit` or
`emitAsync`, so it persists across calls.  Replaying the repository's own
multi-level wildcard test (event.test.ts, which emits two different topics
and expects the `onAny`-style `**` listener to be called twice): after
`on('**', L)` the first `emit` invokes listener id 0 and records it in the
persistent dedupe set, and the second `emit` of a different topic — which
per the claim and the test must invoke the listener exactly once per call —
invokes nothing at all. -/
theorem C1_dedupe_set_persists :
    (emit envW ((«on» (mkFlexEvent none) "**" 0).1) ⟨"user.login", "p"⟩ false).2 =
      [0] ∧
    (emit envW (emit envW ((«on» (mkFlexEvent none) "**" 0).1)
      ⟨"user.login", "p"⟩ false).1 ⟨"order.created", "q"⟩ false).2 = [] :=
  ⟨by decide, by decide⟩

/-- Claim C2, counterexample: a single listener on topic `a` whose callback
throws (callback 9 settles to `Except.error "boom"` under `envW`).
`emitAsync` does not return a one-element sequence with a rejected outcome as
the claim requires: it rejects as a whole, because the walk combines the
listener promises with `Promise.all`, whose rejection the `await` inside
`emitAsync` re-throws before `Promise.allSettled` is ever reached. -/
theorem C2_emitAsync_rejects_counterexample :
    (emitAsync envW ((«on» (mkFlexEvent none) "a" 9).1) ⟨"a", "p"⟩ false).2 =
      Except.error "boom" := rfl

/-- Claim C2 amended: when no listener matches, `emitAsync` resolves with the
empty sequence and the state is unchanged (shown for a fresh instance and
every topic and environment); when every matched listener settles
successfully, it resolves with one `fulfilled` entry per invoked listener
whose value is not `undefined`, in invocation-start order (listener 1
returned `undefined` and is filtered out); and when some matched listener
throws or rejects, `emitAsync` itself rejects with that reason instead of
reporting a rejected outcome. -/
theorem C2_emitAsync_amended :
    (∀ (env : Env) (t pay : String),
      emitAsync env (mkFlexEvent none) ⟨t, pay⟩ false =
        (mkFlexEvent none, Except.ok [])) ∧
    (emitAsync envW ((«on» ((«on» ((«on» (mkFlexEvent none) "a" 0).1) "a" 1).1)
      "a" 2).1) ⟨"a", "p"⟩ false).2 =
      Except.ok [SettledOutcome.fulfilled "v1", SettledOutcome.fulfilled "v2"] ∧
    (emitAsync envW ((«on» ((«on» (mkFlexEvent none) "a" 0).1) "a" 9).1)
      ⟨"a", "p"⟩ false).2 = Except.error "boom" := by
  refine ⟨?_, rfl, rfl⟩
  intro env t pay
  have hr : emitToSubscribers env ⟨t, pay⟩
      (partsOf (mkFlexEvent none) (IEvent.mk t pay).type) [] (mkFlexEvent none) =
      (mkFlexEvent none, [], []) := by
    rw [emitToSubscribers_childless env ⟨t, pay⟩ _ [] (mkFlexEvent none) []
      (by rw [nodeAt?_nil]; rfl)]
    rfl
  exact emitAsync_ok_of_walk env (mkFlexEvent none) ⟨t, pay⟩ (mkFlexEvent none) hr

/-- Claim C4, counterexample: a listener registered at pattern `a.**` is not
invoked by an emission of the bare topic `a` — the walk returns from a node
as soon as no segments remain, before looking at any child, so the `**`
child of `a` is never visited and the claim that `a.**` matches `a` is
false. -/
theorem C4_dstar_bare_topic_counterexample :
    (emit envW ((«on» (mkFlexEvent none) "a.**" 0).1) ⟨"a", "p"⟩ false).2 = [] := by
  decide

/-- Claim C4 amended: `a.*.c` matches `a.b.c` and not `a.b.b.c` (each `*`
consumes exactly one segment); the root pattern `**` matches every emitted
topic — every topic splits into at least one segment, and for any topic and
any listener environment the sole `**` listener of a fresh instance is
invoked exactly once — including the empty-string single-segment topic;
`a.**` matches `a.b` and `a.b.c.d` but not the bare topic `a` (a `**` child
is visited only while at least one segment remains); and recursion into a
`**` child reached through the wildcard branch proceeds with an empty
remaining-segment list, so listeners stored below it, such as at pattern
`a.**.c`, never fire for ordinary topics — they are reachable only through
the exact-match branch, when the emitted topic itself contains a literal
`**` segment. -/
theorem C4_wildcard_matching_amended :
    (emit envW ((«on» (mkFlexEvent none) "a.*.c" 0).1) ⟨"a.b.c", "p"⟩ false).2 =
      [0] ∧
    (emit envW ((«on» (mkFlexEvent none) "a.*.c" 0).1) ⟨"a.b.b.c", "p"⟩ false).2 =
      [] ∧
    (∀ (env : Env) (t pay : String) (c : String) (cs : List String),
      partsOf (mkFlexEvent none) t = c :: cs →
      (emit env ((«on» (mkFlexEvent none) "**" 0).1) ⟨t, pay⟩ false).2 = [0]) ∧
    (emit envW ((«on» (mkFlexEvent none) "**" 0).1) ⟨"", "p"⟩ false).2 = [0] ∧
    (emit envW ((«on» (mkFlexEvent none) "a.**" 0).1) ⟨"a.b", "p"⟩ false).2 = [0] ∧
    (emit envW ((«on» (mkFlexEvent none) "a.**" 0).1) ⟨"a.b.c.d", "p"⟩ false).2 =
      [0] ∧
    (emit envW ((«on» (mkFlexEvent none) "a.**" 0).1) ⟨"a", "p"⟩ false).2 = [] ∧
    (emit envW ((«on» (mkFlexEvent none) "a.**.c" 0).1) ⟨"a.b.c", "p"⟩ false).2 =
      [] ∧
    (emit envW ((«on» (mkFlexEvent none) "a.**.c" 0).1) ⟨"a.x.y.c", "p"⟩ false).2 =
      [] ∧
    (emit envW ((«on» (mkFlexEvent none) "a.**.c" 0).1) ⟨"a.**.c", "p"⟩ false).2 =
      [0] := by
  refine ⟨by decide, by decide, ?_, by decide, by decide, by decide, by decide,
    by decide, by decide, by decide⟩
  intro env t pay c cs hsplit
  have hparts : partsOf ((«on» (mkFlexEvent none) "**" 0).1)
      (IEvent.mk t pay).type = c :: cs := by
    show partsOf ((«on» (mkFlexEvent none) "**" 0).1) t = c :: cs
    rw [partsOf_congr ((«on» (mkFlexEvent none) "**" 0).1) (mkFlexEvent none) t rfl]
    exact hsplit
  rw [emit_false, hparts]
  have hmem : (0 : Nat) ∈ nodeListeners
      ((«on» (mkFlexEvent none) "**" 0).1).subscribers ([] ++ ["**"]) := by decide
  have hin : (0 : Nat) ∈ (emitToSubscribers env ⟨t, pay⟩ (c :: cs) []
      ((«on» (mkFlexEvent none) "**" 0).1)).2.1 :=
    emitToSubscribers_invokes_dstar env ⟨t, pay⟩ c cs []
      ((«on» (mkFlexEvent none) "**" 0).1) 0 hmem (by decide) (by decide)
  have hspec := emitToSubscribers_spec env ⟨t, pay⟩ (c :: cs) []
    ((«on» (mkFlexEvent none) "**" 0).1)
  refine nodup_eq_singleton hspec.invNodup ?_ hin
  intro x hx
  exact mapGet?_singleton_isSome 0 0 x ((hspec.invSound x hx).1)

theorem C4_wildcard_matching_amended_witness :
    (emit envW ((«on» (mkFlexEvent none) "**" 0).1) ⟨"x.y", "p"⟩ false).2 = [0] := by
  have h := C4_wildcard_matching_amended
  exact h.2.2.1 envW "x.y" "p" "x" ["y"] (by decide)

theorem findRemovable_none (entries : List (Nat × Callback)) (cb : Callback)
    (nodeIds : List Nat) (h : ∀ pr ∈ entries, pr.2 = cb → pr.1 ∉ nodeIds) :
    findRemovable entries cb nodeIds = none := by
  induction entries with
  | nil => rfl
  | cons p rest ih =>
    obtain ⟨id, fn⟩ := p
    show (if fn = cb ∧ id ∈ nodeIds then some id else findRemovable rest cb nodeIds)
      = none
    rw [if_neg]
    · exact ih (fun pr hpr => h pr (List.mem_cons_of_mem _ hpr))
    · intro hx
      exact h (id, fn) (List.mem_cons_self _ _) hx.1 hx.2

theorem offAll_some (s : State) (t : String) (ht : t ≠ "") :
    offAll s (some t) =
      { s with
          subscribers := (removeSubscribers s.subscribers (partsOf s t)).1
          listeners := deleteIds s.listeners
            (removeSubscribers s.subscribers (partsOf s t)).2 } := by
  simp [offAll, ht]

/-- Claim C8, counterexample: with one listener (callback 7, allocated id 0)
registered at pattern `a` only, calling `off('a.b', cb)` — a pattern under
which no listener is registered — is not a silent no-op: `_navigateToNode`
without `create` breaks at the missing child `b` and returns the node of the
proper prefix `a`, and the removal scan then deletes the listener registered
at `a` from the registry and the trie. -/
theorem C8_off_prefix_counterexample :
    (off ((«on» (mkFlexEvent none) "a" 7).1) "a.b" 7).listeners = [] ∧
    occCount 0 (off ((«on» (mkFlexEvent none) "a" 7).1) "a.b" 7).subscribers = 0 :=
  ⟨by decide, by decide⟩

/-- Claim C8 amended: emitting an event that invokes no listener leaves the
state completely unchanged and raises nothing; `off(pattern, cb)` locates its
node by walking the pattern's segments and stopping at the first missing
child — so it may act on the deepest existing proper-prefix node and remove
a reference-equal callback registered there — but when no registered
reference-equal callback has its id in that reached node's listener set,
`off` leaves the state completely unchanged; and `offAll(pattern)` on a
non-empty pattern whose segment path does not fully exist in the trie leaves
the state completely unchanged.  None of these raises a failure (all the
modelled operations are total). -/
theorem C8_no_match_noop_amended :
    (∀ (env : Env) (s : State) (ev : IEvent),
      (emit env s ev false).2 = [] → (emit env s ev false).1 = s) ∧
    (∀ (s : State) (t : String) (cb : Callback),
      (∀ pr ∈ s.listeners, pr.2 = cb →
        pr.1 ∉ nodeListeners s.subscribers (navigatePath s.subscribers (partsOf s t))) →
      off s t cb = s) ∧
    (∀ (s : State) (t : String), t ≠ "" →
      nodeAt? s.subscribers (partsOf s t) = none → offAll s (some t) = s) := by
  refine ⟨?_, ?_, ?_⟩
  · intro env s ev hinv
    exact (emit_spec env s ev).noInv hinv
  · intro s t cb hnone
    have hfr := findRemovable_none s.listeners cb
      (nodeListeners s.subscribers (navigatePath s.subscribers (partsOf s t))) hnone
    simp [off, hfr]
  · intro s t ht hmiss
    have hrs := removeSubscribers_missing s.subscribers (partsOf s t) hmiss
    rw [offAll_some s t ht, hrs]
    rfl

theorem C8_no_match_noop_amended_witness :
    (emit envW (mkFlexEvent none) ⟨"nobody.listens", "p"⟩ false).1 =
      mkFlexEvent none ∧
    off ((«on» (mkFlexEvent none) "a" 7).1) "zz" 8 =
      («on» (mkFlexEvent none) "a" 7).1 ∧
    offAll ((«on» (mkFlexEvent none) "a" 7).1) (some "zz.deep") =
      («on» (mkFlexEvent none) "a" 7).1 := by
  have h := C8_no_match_noop_amended
  exact ⟨h.1 envW (mkFlexEvent none) ⟨"nobody.listens", "p"⟩ (by decide),
    h.2.1 ((«on» (mkFlexEvent none) "a" 7).1) "zz" 8 (by decide),
    h.2.2 ((«on» (mkFlexEvent none) "a" 7).1) "zz.deep" (by decide) rfl⟩

/-- Claim C9, counterexample: with one listener (callback 7, id 0) registered
at pattern `a.b`, `offAll('a')` unlinks the whole `a` subtree from the trie
— so id 0 occurs in no reachable trie node — yet deletes from the registry
only the ids stored at the node `a` itself, so id 0 remains registered: the
bidirectional trie-registry invariant is broken, and `offAll` did not
recursively clear the deeper listener from the registry. -/
theorem C9_offAll_orphans_counterexample :
    (offAll ((«on» (mkFlexEvent none) "a.b" 7).1) (some "a")).listeners =
      [(0, 7)] ∧
    occCount 0 (offAll ((«on» (mkFlexEvent none) "a.b" 7).1)
      (some "a")).subscribers = 0 :=
  ⟨by decide, by decide⟩

/-- Claim C9 amended: `offAll(pattern)` on a non-empty pattern removes from
the registry exactly the ids stored at the node reached by the pattern's
full segment path (none when the path is missing), never increases any id's
number of trie occurrences, and unlinks the reached subtree (the pattern's
path no longer exists afterwards); listeners registered at deeper
descendants therefore vanish from the trie while their registry entries
remain.  The trie-to-registry direction of the invariant is preserved: on a
state where every id stored in the trie is registered and no id occurs in
more than one place, every id still stored in the trie after `offAll` is
still registered. -/
theorem C9_offAll_subtree_amended :
    (∀ (s : State) (t : String), t ≠ "" → ∀ id,
      mapGet? (offAll s (some t)).listeners id =
        if id ∈ nodeListeners s.subscribers (partsOf s t) then none
        else mapGet? s.listeners id) ∧
    (∀ (s : State) (t : String) (id : Nat), t ≠ "" →
      occCount id (offAll s (some t)).subscribers ≤ occCount id s.subscribers) ∧
    (∀ (s : State) (t : String), t ≠ "" →
      (nodeAt? s.subscribers (partsOf s t)).isSome = true →
      nodeAt? (offAll s (some t)).subscribers (partsOf s t) = none) ∧
    (∀ (s : State) (t : String), t ≠ "" →
      (∀ id, occCount id s.subscribers ≠ 0 →
        (mapGet? s.listeners id).isSome = true) →
      (∀ id, occCount id s.subscribers ≤ 1) →
      ∀ id, occCount id (offAll s (some t)).subscribers ≠ 0 →
        (mapGet? (offAll s (some t)).listeners id).isSome = true) := by
  refine ⟨?_, ?_, ?_, ?_⟩
  · intro s t ht id
    rw [offAll_some s t ht]
    show mapGet? (deleteIds s.listeners
      (removeSubscribers s.subscribers (partsOf s t)).2) id = _
    rw [deleteIds_get, removeSubscribers_ids]
  · intro s t id ht
    rw [offAll_some s t ht]
    exact occ_removeSubscribers_le id s.subscribers (partsOf s t)
  · intro s t ht hsome
    rw [offAll_some s t ht]
    obtain ⟨c, cs, hsplit⟩ := splitString_cons t s.delimiter
    have hne : partsOf s t ≠ [] := by
      rw [partsOf, hsplit]
      simp
    exact removeSubscribers_unlinks s.subscribers (partsOf s t) hne hsome
  · intro s t ht hinv huniq id hocc
    rw [offAll_some s t ht] at hocc ⊢
    dsimp only at hocc ⊢
    have hadd := occ_removeSubscribers_add id s.subscribers (partsOf s t)
    have hocc0 : occCount id s.subscribers ≠ 0 := by
      intro hz
      rw [hz] at hadd
      omega
    have hnotnode : id ∉ nodeListeners s.subscribers (partsOf s t) := by
      intro hmem
      have hcnt : 0 < (nodeListeners s.subscribers (partsOf s t)).count id :=
        List.count_pos_iff.mpr hmem
      have h1 := huniq id
      omega
    show (mapGet? (deleteIds s.listeners
      (removeSubscribers s.subscribers (partsOf s t)).2) id).isSome = true
    rw [deleteIds_get, removeSubscribers_ids, if_neg hnotnode]
    exact hinv id hocc0

theorem C9_offAll_subtree_amended_witness :
    mapGet? (offAll ((«on» (mkFlexEvent none) "a.b" 7).1)
      (some "a.b")).listeners 0 = none ∧
    occCount 0 (offAll ((«on» (mkFlexEvent none) "a.b" 7).1)
      (some "a.b")).subscribers ≤
      occCount 0 ((«on» (mkFlexEvent none) "a.b" 7).1).subscribers ∧
    nodeAt? (offAll ((«on» (mkFlexEvent none) "a.b" 7).1)
      (some "a.b")).subscribers
      (partsOf ((«on» (mkFlexEvent none) "a.b" 7).1) "a.b") = none := by
  have h := C9_offAll_subtree_amended
  have hocc : ∀ id : Nat,
      occCount id ((«on» (mkFlexEvent none) "a.b" 7).1).subscribers =
        List.count id [0] := by
    intro id
    show occCount id (SubscriberNode.node []
      [("a", SubscriberNode.node [] [("b", SubscriberNode.node [0] [])])]) = _
    simp [occCount, occCountChildren]
  refine ⟨?_, ?_, ?_⟩
  · have h1 := h.1 ((«on» (mkFlexEvent none) "a.b" 7).1) "a.b" (by decide) 0
    rw [h1, if_pos (by decide)]
  · exact h.2.1 ((«on» (mkFlexEvent none) "a.b" 7).1) "a.b" 0 (by decide)
  · exact h.2.2.1 ((«on» (mkFlexEvent none) "a.b" 7).1) "a.b" (by decide) (by decide)

end FlexEvent

